import Mathlib

/-
Verification development for the chess-opening variation viewer
(src/app.py).  The file embeds, as executable Lean definitions,

  * the asset-text parser `parse_assets` (with its inner
    `flush_variation` closure), over an abstract rules engine
    `resolve : fen -> token -> Option (uci, fen)` standing for
    python-chess `Board.parse_san` / `push` / `fen` (the rules engine
    is an external collaborator of the program, so it is a parameter);

  * the playback controller (`play_move_sequence_to` with its inner
    `step_to` / `after_anim` closures, `on_prev`, `on_next`,
    `reload_assets`) as a cooperative event system: tkinter
    `after`-callbacks are defunctionalized into a pending-task queue,
    and the observable actions (animate calls, frame steps, completion
    callbacks, canvas resets, ...) are recorded in a trace;

  * the canvas-level `BoardCanvas.animate_move` with its three paths
    (missing moving piece, missing canvas item, frame-by-frame
    animation).

Python strings are modelled as lists of characters; text files are
given as their list of lines (the result of `splitlines`).
-/

set_option maxHeartbeats 1000000

namespace ChessVar

/-- Strings are modelled as lists of characters. -/
abbrev Str := List Char

/-- ASCII whitespace, as recognised by Python `str.strip()` /
`str.split()` on the plain-text assets handled by the program. -/
def isWS (c : Char) : Bool :=
  c = ' ' || c = '\t' || c = '\n' || c = '\r' || c = '\x0b' || c = '\x0c'

/-- Python `s.lstrip()`. -/
def lstrip (s : Str) : Str := s.dropWhile isWS

/-- Python `s.rstrip()`. -/
def rstrip (s : Str) : Str := (s.reverse.dropWhile isWS).reverse

/-- Python `s.strip()`. -/
def strip (s : Str) : Str := rstrip (lstrip s)

/-- Python `s.rstrip(":")`. -/
def rstripColon (s : Str) : Str :=
  (s.reverse.dropWhile (fun c => c = ':')).reverse

/-- Header-name extraction in `parse_assets`:
`line_stripped.lstrip("* ").strip().rstrip(":")`. -/
def parseName (ls : Str) : Str :=
  rstripColon (strip (ls.dropWhile (fun c => c = '*' || c = ' ')))

/-- Test for `line_stripped.startswith("**")`. -/
def startsTwoStars : Str → Bool
  | '*' :: '*' :: _ => true
  | _ => false

/-- Test for `line_stripped.startswith("*")`. -/
def startsStar : Str → Bool
  | '*' :: _ => true
  | _ => false

/-- Separator test in `parse_assets`:
`line_stripped.startswith("-") and set(line_stripped) <= set("- ")`. -/
def isSepLine (ls : Str) : Bool :=
  match ls with
  | [] => false
  | c :: _ => c = '-' && ls.all (fun d => d = '-' || d = ' ')

/-- Fuel-driven scan for `re.sub(r"\{\s*.*?\s*\}", "", ln)`: each
brace-comment span, from a `\x7b` to the nearest following `\x7d`, is
removed; a `\x7b` with no closing `\x7d` is left as is.  The fuel
only makes the recursion structural (each step consumes at least one
character, so `s.length` fuel is never exhausted). -/
def removeBracesF : Nat → Str → Str
  | 0, s => s
  | _ + 1, [] => []
  | fuel + 1, c :: rest =>
    if c = '\x7b' then
      match rest.dropWhile (fun d => !(d = '\x7d')) with
      | [] => c :: rest
      | _ :: a => removeBracesF fuel a
    else
      c :: removeBracesF fuel rest

/-- Substitution of `re.sub(r"\{\s*.*?\s*\}", "", ln)` on one line. -/
def removeBraces (s : Str) : Str := removeBracesF s.length s

/-- Fuel-driven scan for `re.sub(r"\d+\.(\.\.)?", "", ln)`: a maximal
digit run followed by a dot, optionally followed by two further dots,
is removed; other characters are kept. -/
def removeMoveNumsF : Nat → Str → Str
  | 0, s => s
  | _ + 1, [] => []
  | fuel + 1, c :: rest =>
    if c.isDigit then
      match rest.dropWhile Char.isDigit with
      | '.' :: '.' :: '.' :: a4 => removeMoveNumsF fuel a4
      | '.' :: a2 => removeMoveNumsF fuel a2
      | _ => c :: removeMoveNumsF fuel rest
    else
      c :: removeMoveNumsF fuel rest

/-- Substitution of `re.sub(r"\d+\.(\.\.)?", "", ln)` on one line. -/
def removeMoveNums (s : Str) : Str := removeMoveNumsF s.length s

/-- Accumulator pass for Python `s.split()`: `acc` holds the pending
token, reversed. -/
def splitWSAux : Str → Str → List Str
  | acc, [] => if acc = [] then [] else [acc.reverse]
  | acc, c :: rest =>
    if isWS c then
      (if acc = [] then [] else [acc.reverse]) ++ splitWSAux [] rest
    else splitWSAux (c :: acc) rest

/-- Python `s.split()`: split on runs of whitespace, dropping empty
pieces. -/
def splitWS (s : Str) : List Str := splitWSAux [] s

/-- Stripping of trailing annotation glyphs from a token:
`re.sub(r"[!?+#]+$", "", tok)`. -/
def stripAnnot (tok : Str) : Str :=
  (tok.reverse.dropWhile (fun c => c = '!' || c = '?' || c = '+' || c = '#')).reverse

/-- The pure-ellipsis placeholder token dropped by the parser. -/
def ellipsisTok : Str := ['.', '.', '.']

/-- Token extraction from one accumulated move line: remove brace
comments, remove move numbers, strip, split on whitespace. -/
def lineTokens (ln : Str) : List Str :=
  splitWS (strip (removeMoveNums (removeBraces ln)))

/-- Token extraction from the accumulated move lines of a variation,
including the filter
`[t for t in tokens if t.strip() and t.strip() not in ("...",)]`. -/
def extractTokens (ls : List Str) : List Str :=
  ((ls.map lineTokens).flatten).filter
    (fun t => decide (strip t ≠ [] ∧ strip t ≠ ellipsisTok))

/-- Result of the token-validation loop of `flush_variation`:
the accepted original tokens (`valid_sans`), their canonical moves
(`ucis`), the positions reached after each accepted move (the tail of
`fens`), and the offending token if the loop stopped early. -/
structure Resolved where
  sans : List Str
  ucis : List Str
  fens : List Str
  bad : Option Str
deriving DecidableEq, Repr

/-- The token-validation loop of `flush_variation`: starting from
position `fen`, resolve each token (with annotation glyphs stripped)
against the current simulated position; on the first failure, stop
and record the offending token. -/
def resolveTokens (resolve : Str → Str → Option (Str × Str)) :
    Str → List Str → Resolved
  | _, [] => ⟨[], [], [], none⟩
  | fen, tok :: rest =>
    match resolve fen (stripAnnot tok) with
    | none => ⟨[], [], [], some tok⟩
    | some (uci, fen2) =>
      let r := resolveTokens resolve fen2 rest
      ⟨tok :: r.sans, uci :: r.ucis, fen2 :: r.fens, r.bad⟩

/-- A parsed variation: the dict with keys name, moves_san,
moves_uci and states_fen built by `flush_variation`. -/
structure Variation where
  name : Str
  moves_san : List Str
  moves_uci : List Str
  states_fen : List Str
deriving DecidableEq, Repr

/-- A diagnostic emitted by `flush_variation` when a token fails to
resolve (the `print("Warning: could not parse move ...")` line). -/
structure Diag where
  opening : Str
  variation : Str
  token : Str
deriving DecidableEq, Repr

/-- The openings mapping: a Python dict (insertion ordered) from
opening name to its list of variations. -/
abbrev OpeningsMap := List (Str × List Variation)

/-- Effect of `openings.setdefault(cur_opening, []).append(obj)` on
the insertion-ordered dict. -/
def appendVar (k : Str) (v : Variation) : OpeningsMap → OpeningsMap
  | [] => [(k, [v])]
  | (k2, vs) :: rest =>
    if k2 = k then (k2, vs ++ [v]) :: rest else (k2, vs) :: appendVar k v rest

/-- Dict lookup with default `[]`. -/
def lookupVars (k : Str) : OpeningsMap → List Variation
  | [] => []
  | (k2, vs) :: rest => if k2 = k then vs else lookupVars k rest

/-- The keys of the openings mapping. -/
def keysOf (m : OpeningsMap) : List Str := m.map Prod.fst

/-- The mutable locals of the per-file parsing loop of `parse_assets`,
plus the accumulated openings dict and diagnostics. -/
structure ParseState where
  openings : OpeningsMap
  curOpening : Option Str
  curVariation : Option Str
  curMovesLines : List Str
  diags : List Diag
deriving DecidableEq, Repr

/-- Python `"\n".join(lines)`. -/
def joinNL (ls : List Str) : Str := (List.intersperse ['\n'] ls).flatten

/-- The `flush_variation` closure: requires an open Opening and an
open Variation and non-blank accumulated move text; then tokenizes,
validates against the rules engine, appends the variation object
(regardless of how many tokens resolved) and records a diagnostic for
an offending token. -/
def flush_variation (resolve : Str → Str → Option (Str × Str)) (fen0 : Str)
    (st : ParseState) : ParseState :=
  match st.curOpening, st.curVariation with
  | some op, some vn =>
    if strip (joinNL st.curMovesLines) = [] then st
    else
      let toks := extractTokens st.curMovesLines
      let r := resolveTokens resolve fen0 toks
      { st with
        openings := appendVar op ⟨vn, r.sans, r.ucis, fen0 :: r.fens⟩ st.openings,
        curMovesLines := [],
        diags := st.diags ++
          (match r.bad with
           | some t => [⟨op, vn, t⟩]
           | none => []) }
  | _, _ => st

/-- One iteration of the `for line in lines` loop of `parse_assets`. -/
def processLine (resolve : Str → Str → Option (Str × Str)) (fen0 : Str)
    (st : ParseState) (line : Str) : ParseState :=
  let ls := strip line
  if startsTwoStars ls then
    let st2 := flush_variation resolve fen0 st
    { st2 with curVariation := none, curMovesLines := [],
               curOpening := some (parseName ls) }
  else if startsStar ls then
    let st2 := flush_variation resolve fen0 st
    { st2 with curVariation := some (parseName ls), curMovesLines := [] }
  else if isSepLine ls then
    let st2 := flush_variation resolve fen0 st
    { st2 with curVariation := none, curMovesLines := [] }
  else
    if st.curVariation ≠ none ∧ strip line ≠ [] then
      { st with curMovesLines := st.curMovesLines ++ [rstrip line] }
    else st

/-- The line loop of `parse_assets` over one file. -/
def processLines (resolve : Str → Str → Option (Str × Str)) (fen0 : Str)
    (st : ParseState) (lines : List Str) : ParseState :=
  lines.foldl (processLine resolve fen0) st

/-- Parsing of one file: fresh per-file locals, the line loop, and the
final `flush_variation()` call. -/
def parseFile (resolve : Str → Str → Option (Str × Str)) (fen0 : Str)
    (acc : OpeningsMap × List Diag) (lines : List Str) :
    OpeningsMap × List Diag :=
  let st := processLines resolve fen0 ⟨acc.1, none, none, [], acc.2⟩ lines
  let st2 := flush_variation resolve fen0 st
  (st2.openings, st2.diags)

/-- The whole of `parse_assets`: the openings dict and diagnostics
accumulated over all asset files (each given as its list of lines). -/
def parse_assets (resolve : Str → Str → Option (Str × Str)) (fen0 : Str)
    (files : List (List Str)) : OpeningsMap × List Diag :=
  files.foldl (parseFile resolve fen0) ([], [])

/-! Light model of the parser state: the three mutable locals of the
line loop, without the accumulated dict and diagnostics.  The parser
is proved equal to a fold on the light state together with a stream of
emitted (opening, variation) pairs; the claims about the shape of the
output mapping are read off that decomposition. -/

/-- The three per-file locals `cur_opening`, `cur_variation`,
`cur_moves_lines`. -/
structure LightState where
  curOpening : Option Str
  curVariation : Option Str
  curMovesLines : List Str
deriving DecidableEq, Repr

/-- Projection of the full parser state to the light state. -/
def lightOf (st : ParseState) : LightState :=
  ⟨st.curOpening, st.curVariation, st.curMovesLines⟩

/-- The (opening, variation) pair appended by one `flush_variation`
call, if any. -/
def flushEmit (resolve : Str → Str → Option (Str × Str)) (fen0 : Str)
    (l : LightState) : List (Str × Variation) :=
  match l.curOpening, l.curVariation with
  | some op, some vn =>
    if strip (joinNL l.curMovesLines) = [] then []
    else
      let r := resolveTokens resolve fen0 (extractTokens l.curMovesLines)
      [(op, ⟨vn, r.sans, r.ucis, fen0 :: r.fens⟩)]
  | _, _ => []

/-- The diagnostics emitted by one `flush_variation` call. -/
def flushDiags (resolve : Str → Str → Option (Str × Str)) (fen0 : Str)
    (l : LightState) : List Diag :=
  match l.curOpening, l.curVariation with
  | some op, some vn =>
    if strip (joinNL l.curMovesLines) = [] then []
    else
      match (resolveTokens resolve fen0 (extractTokens l.curMovesLines)).bad with
      | some t => [⟨op, vn, t⟩]
      | none => []
  | _, _ => []

/-- Effect of one `flush_variation` call on the light state. -/
def flushLight (l : LightState) : LightState :=
  match l.curOpening, l.curVariation with
  | some _, some _ =>
    if strip (joinNL l.curMovesLines) = [] then l
    else { l with curMovesLines := [] }
  | _, _ => l

/-- Effect of one line of the parsing loop on the light state. -/
def lightLine (l : LightState) (line : Str) : LightState :=
  let ls := strip line
  if startsTwoStars ls then
    { flushLight l with curVariation := none, curMovesLines := [],
                        curOpening := some (parseName ls) }
  else if startsStar ls then
    { flushLight l with curVariation := some (parseName ls), curMovesLines := [] }
  else if isSepLine ls then
    { flushLight l with curVariation := none, curMovesLines := [] }
  else if l.curVariation ≠ none ∧ strip line ≠ [] then
    { l with curMovesLines := l.curMovesLines ++ [rstrip line] }
  else l

/-- The (opening, variation) pairs appended while processing one
line. -/
def lineEmit (resolve : Str → Str → Option (Str × Str)) (fen0 : Str)
    (l : LightState) (line : Str) : List (Str × Variation) :=
  let ls := strip line
  if startsTwoStars ls || startsStar ls || isSepLine ls then
    flushEmit resolve fen0 l
  else []

/-- The diagnostics emitted while processing one line. -/
def lineDiags (resolve : Str → Str → Option (Str × Str)) (fen0 : Str)
    (l : LightState) (line : Str) : List Diag :=
  let ls := strip line
  if startsTwoStars ls || startsStar ls || isSepLine ls then
    flushDiags resolve fen0 l
  else []

/-- Replay of a stream of appended pairs against an openings dict. -/
def applyEvts (evts : List (Str × Variation)) (m : OpeningsMap) : OpeningsMap :=
  evts.foldl (fun m2 p => appendVar p.1 p.2 m2) m

/-- Light state after a list of lines. -/
def lightRun (l : LightState) (lines : List Str) : LightState :=
  lines.foldl lightLine l

/-- Pairs appended over a list of lines. -/
def linesEmit (resolve : Str → Str → Option (Str × Str)) (fen0 : Str) :
    LightState → List Str → List (Str × Variation)
  | _, [] => []
  | l, line :: rest =>
    lineEmit resolve fen0 l line ++ linesEmit resolve fen0 (lightLine l line) rest

/-- Diagnostics emitted over a list of lines. -/
def linesDiags (resolve : Str → Str → Option (Str × Str)) (fen0 : Str) :
    LightState → List Str → List Diag
  | _, [] => []
  | l, line :: rest =>
    lineDiags resolve fen0 l line ++ linesDiags resolve fen0 (lightLine l line) rest

/-- The fresh light state at the beginning of each file. -/
def initLight : LightState := ⟨none, none, []⟩

/-- Pairs appended while parsing one whole file (line loop plus the
final flush). -/
def fileEmit (resolve : Str → Str → Option (Str × Str)) (fen0 : Str)
    (lines : List Str) : List (Str × Variation) :=
  linesEmit resolve fen0 initLight lines ++
    flushEmit resolve fen0 (lightRun initLight lines)

/-- Diagnostics emitted while parsing one whole file. -/
def fileDiags (resolve : Str → Str → Option (Str × Str)) (fen0 : Str)
    (lines : List Str) : List Diag :=
  linesDiags resolve fen0 initLight lines ++
    flushDiags resolve fen0 (lightRun initLight lines)

/-- Variations carried by the events with a given key, in order. -/
def filterKey (k : Str) (evts : List (Str × Variation)) : List Variation :=
  (evts.filter (fun p => decide (p.1 = k))).map Prod.snd

/-- A line that opens no Opening, opens no Variation and is not a
separator: either blank or move text. -/
def plainLine (l : Str) : Bool :=
  !startsTwoStars (strip l) && !startsStar (strip l) && !isSepLine (strip l)

/-! The playback controller (OpeningViewerApp) and the cooperative
animation scheduler.  The mutable closures driving sequential frames
through tkinter `after` are defunctionalized: a pending `frame(i)`
callback becomes a task carrying the variables the closure captured,
and the host event loop becomes a FIFO queue of such tasks processed
by `drain`.  Observable actions are recorded in a trace.  A step
returns `none` where the source would raise an uncaught exception
(out-of-range list index or missing dict key). -/

/-- The ANIM_FRAMES constant of the module. -/
def ANIM_FRAMES : Nat := 25

/-- The playback fields of OpeningViewerApp.  `playingAnimation`
mirrors `self.playing_animation`, which `__init__` sets to False and
which no other code reads or writes. -/
structure App where
  openings : OpeningsMap
  currentOpening : Option Str
  currentVariationIdx : Option Nat
  currentMoveIndex : Nat
  playingAnimation : Bool
deriving DecidableEq, Repr

/-- Observable controller and scheduler actions. -/
inductive CEvent where
  | animStart (uciIdx : Nat)
  | frameMove (i : Nat)
  | cbFired (uciIdx : Nat)
  | canvasReset (plies : Nat)
  | arrowDrawn
  | checkShown
  | statusUpd (idx : Nat)
  | statusLoaded
deriving DecidableEq, Repr

/-- The variables captured by the `step_to` / `after_anim` / `frame`
closures of one in-flight animation: the variation object, its
`max_moves`, the `next_index` being animated towards, and the jump
target `idx_to`. -/
structure Session where
  varData : Variation
  maxMoves : Nat
  nextIndex : Nat
  target : Nat
deriving DecidableEq, Repr

/-- A pending tkinter `after` callback: the `frame(i)` closure of an
animation session. -/
inductive Task where
  | frame (s : Session) (i : Nat)
deriving DecidableEq, Repr

/-- The interactive system: app state, the pending `after` callbacks
in FIFO order, and the trace of observable actions (oldest first). -/
structure Sys where
  app : App
  pending : List Task
  trace : List CEvent
deriving DecidableEq, Repr

/-- The lookup `self.openings[self.current_opening][self.current_variation_idx]`;
`none` stands for the KeyError / IndexError the source would raise. -/
def lookupVariation (a : App) : Option Variation :=
  match a.currentOpening, a.currentVariationIdx with
  | some o, some i => (lookupVars o a.openings)[i]?
  | _, _ => none

/-- The `step_to` closure of `play_move_sequence_to`: one navigation
step from `idxFrom` towards `idxTo`.  Equal indices only refresh the
cursor and status.  A forward step reads `moves_uci[next_index - 1]`
and reconstructs the board from `states_fen[0]`, then calls
`animate_move`, whose first frame runs synchronously and whose next
frame is scheduled through `after`.  A backward jump re-renders
directly from the reconstructed position, with no scheduling. -/
def step_to (var : Variation) (maxMoves : Nat) (sys : Sys)
    (idxFrom idxTo : Nat) : Option Sys :=
  if idxFrom = idxTo then
    some { sys with app.currentMoveIndex := idxTo,
                    trace := sys.trace ++ [CEvent.statusUpd idxTo] }
  else if idxFrom < idxTo then
    let next := idxFrom + 1
    match var.moves_uci[next - 1]?, var.states_fen[0]? with
    | some _, some _ =>
      some { sys with
        pending := sys.pending ++ [Task.frame ⟨var, maxMoves, next, idxTo⟩ 1],
        trace := sys.trace ++ [CEvent.animStart (next - 1), CEvent.frameMove 0] }
    | _, _ => none
  else
    match var.states_fen[0]? with
    | none => none
    | some _ =>
      if 0 < idxTo then
        match var.moves_uci[idxTo - 1]? with
        | none => none
        | some _ =>
          some { sys with
            app.currentMoveIndex := idxTo,
            trace := sys.trace ++ [CEvent.canvasReset idxTo, CEvent.arrowDrawn,
              CEvent.checkShown, CEvent.statusUpd idxTo] }
      else
        some { sys with
          app.currentMoveIndex := idxTo,
          trace := sys.trace ++ [CEvent.canvasReset idxTo, CEvent.checkShown,
            CEvent.statusUpd idxTo] }

/-- The `after_anim` completion callback: push the animated move,
reset the canvas to the new position, redraw arrow and check marker,
advance `current_move_index`, refresh the status, and continue
stepping towards the captured target. -/
def after_anim (s : Session) (sys : Sys) : Option Sys :=
  step_to s.varData s.maxMoves
    { sys with
      app.currentMoveIndex := s.nextIndex,
      trace := sys.trace ++ [CEvent.canvasReset s.nextIndex, CEvent.arrowDrawn,
        CEvent.checkShown, CEvent.statusUpd s.nextIndex] }
    s.nextIndex s.target

/-- Processing of one pending `frame(i)` callback: a non-final frame
moves the clone one step and schedules `frame(i+1)`; the final frame
places the piece, draws the arrow and invokes the completion callback
synchronously within the same step. -/
def processTask (sys : Sys) : Task → Option Sys
  | Task.frame s i =>
    if ANIM_FRAMES ≤ i then
      after_anim s
        { sys with trace := sys.trace ++ [CEvent.arrowDrawn, CEvent.cbFired (s.nextIndex - 1)] }
    else
      some { sys with pending := sys.pending ++ [Task.frame s (i + 1)],
                      trace := sys.trace ++ [CEvent.frameMove i] }

/-- The host event loop: run pending `after` callbacks in FIFO order
until none remain, giving up (`none`) when `fuel` runs out with work
still pending. -/
def drain : Nat → Sys → Option Sys
  | 0, sys => if sys.pending = [] then some sys else none
  | fuel + 1, sys =>
    match sys.pending with
    | [] => some sys
    | t :: rest => (processTask { sys with pending := rest } t).bind (drain fuel)

/-- `play_move_sequence_to`: guard on a selected variation, look the
variation up, clamp the target with `max(0, min(target, max_moves))`,
and make the initial `step_to` call. -/
def play_move_sequence_to (sys : Sys) (target : Int) : Option Sys :=
  if sys.app.currentOpening = none ∨ sys.app.currentVariationIdx = none then some sys
  else
    match lookupVariation sys.app with
    | none => none
    | some var =>
      let maxMoves := var.moves_uci.length
      step_to var maxMoves sys sys.app.currentMoveIndex
        (max 0 (min target (maxMoves : Int))).toNat

/-- The Prev button handler. -/
def on_prev (sys : Sys) : Option Sys :=
  if sys.app.currentOpening = none ∨ sys.app.currentVariationIdx = none then some sys
  else play_move_sequence_to sys ((sys.app.currentMoveIndex : Int) - 1)

/-- The Next button handler. -/
def on_next (sys : Sys) : Option Sys :=
  if sys.app.currentOpening = none ∨ sys.app.currentVariationIdx = none then some sys
  else play_move_sequence_to sys ((sys.app.currentMoveIndex : Int) + 1)

/-- `reload_assets` followed by `populate_tree`: replace the openings
dict, clear the selection, reset the cursor, redraw the initial board
and refresh the status label.  Pending `after` callbacks of an
in-flight animation are not cancelled. -/
def reload_assets (sys : Sys) (newOpenings : OpeningsMap) : Sys :=
  { app := { openings := newOpenings, currentOpening := none,
             currentVariationIdx := none, currentMoveIndex := 0,
             playingAnimation := sys.app.playingAnimation },
    pending := sys.pending,
    trace := sys.trace ++ [CEvent.canvasReset 0, CEvent.statusLoaded] }

/-- Test for an animate_move invocation event. -/
def isStart : CEvent → Bool
  | CEvent.animStart _ => true
  | _ => false

/-- Test for a completion-callback event. -/
def isCb : CEvent → Bool
  | CEvent.cbFired _ => true
  | _ => false

/-- Test for a canvas reset event. -/
def isReset : CEvent → Bool
  | CEvent.canvasReset _ => true
  | _ => false

/-- Number of animate_move invocations recorded in a trace. -/
def countStarts (tr : List CEvent) : Nat := (tr.filter isStart).length

/-- Number of completion callbacks recorded in a trace. -/
def countCbs (tr : List CEvent) : Nat := (tr.filter isCb).length

/-- Number of canvas resets recorded in a trace. -/
def countResets (tr : List CEvent) : Nat := (tr.filter isReset).length

/-- Scan checking that animate sessions never overlap: no second
animStart before the callback of the previous session fired, and no
callback without a session in flight; `inFlight` is the scan state. -/
def seqAux : Bool → List CEvent → Bool
  | _, [] => true
  | inFlight, e :: rest =>
    match e with
    | CEvent.animStart _ => if inFlight then false else seqAux true rest
    | CEvent.cbFired _ => if inFlight then seqAux false rest else false
    | _ => seqAux inFlight rest

/-- Sequentiality of a trace, scanned from the no-session state. -/
def seqOK (tr : List CEvent) : Bool := seqAux false tr

/-- Queue steps needed to finish an in-flight animation chain whose
current frame callback is `frame(i)`. -/
def chainFuel (s : Session) (i : Nat) : Nat :=
  (s.target - s.nextIndex) * ANIM_FRAMES + (ANIM_FRAMES + 1 - i)

/-! Canvas-level model of `BoardCanvas.animate_move`, with its three
paths (missing moving piece, missing canvas item, frame-by-frame
animation).  The call is modelled as the list of its cooperative
steps — the synchronous part of the call together with `frame(0)`
first, then one entry per `after` callback — each step being the list
of primitive canvas actions it performs.  The chess queries the code
makes about `board_before` and the move are inputs, since the rules
engine is an external collaborator. -/

/-- A piece as the animation code views it: colour (true = white, as
in python-chess) and kind. -/
structure Piece where
  color : Bool
  kind : Nat
deriving DecidableEq, Repr

/-- The answers `animate_move` obtains from python-chess about
`board_before` and the move: the pieces on the from- and to-squares,
`board_before.is_capture(move)` and `move.is_en_passant()`. -/
structure MoveCtx where
  fromSq : Nat
  toSq : Nat
  pieceAtFrom : Option Piece
  pieceAtTo : Option Piece
  isCaptureMove : Bool
  isEnPassantMove : Bool
deriving DecidableEq, Repr

/-- Canvas piece items by square: `images_on_board` and `text_items`
(only occupancy matters to the control flow), plus
`piece_imgs.has_images`. -/
structure CanvasState where
  imagesOnBoard : List Nat
  textItems : List Nat
  hasImages : Bool
deriving DecidableEq, Repr

/-- chess.square_file. -/
def squareFile (sq : Nat) : Nat := sq % 8

/-- chess.square_rank. -/
def squareRank (sq : Nat) : Nat := sq / 8

/-- Primitive canvas actions of one `animate_move` call. -/
inductive AEvent where
  | resetToFinal
  | cb
  | cloneMade
  | cloneGone
  | delItem (sq : Nat)
  | moveFrag
  | placedAt (sq : Nat)
  | arrowA
deriving DecidableEq, Repr

/-- Test for the completion-callback action. -/
def isCbA : AEvent → Bool
  | AEvent.cb => true
  | _ => false

/-- Number of completion-callback invocations in a list of canvas
actions. -/
def countCbA (evs : List AEvent) : Nat := (evs.filter isCbA).length

/-- Occupancy test over both item maps. -/
def hasItemAt (cv : CanvasState) (sq : Nat) : Bool :=
  cv.imagesOnBoard.contains sq || cv.textItems.contains sq

/-- Removal of the items at a square from both maps. -/
def deleteAt (cv : CanvasState) (sq : Nat) : CanvasState :=
  { cv with imagesOnBoard := cv.imagesOnBoard.filter (fun q => !(q == sq)),
            textItems := cv.textItems.filter (fun q => !(q == sq)) }

/-- The guarded deletion events for the items at a square:
`self.delete` plus `del` on each map the square is present in. -/
def delEvents (cv : CanvasState) (sq : Nat) : List AEvent :=
  (if cv.imagesOnBoard.contains sq then [AEvent.delItem sq] else []) ++
    (if cv.textItems.contains sq then [AEvent.delItem sq] else [])

/-- The captured-piece removal block (run at the midpoint frame, and
again at the final frame for any item still present). -/
def removeCapturedAt (cv : CanvasState) (capSq : Option Nat) :
    CanvasState × List AEvent :=
  match capSq with
  | none => (cv, [])
  | some sq => (deleteAt cv sq, delEvents cv sq)

/-- The computation of `captured_item_sq`: the to-square if a
captured piece item is there, else — for en passant — the square
offset by one rank in the direction of the moving colour, when an item is
there (`chess.square` with a rank off the board yields an index that
is a key of neither map). -/
def capturedItemSq (b : MoveCtx) (cv : CanvasState) : Option Nat :=
  match (if b.isCaptureMove then b.pieceAtTo else none) with
  | none => none
  | some _ =>
    if hasItemAt cv b.toSq then some b.toSq
    else if b.isEnPassantMove then
      match b.pieceAtFrom with
      | some mp =>
        let capZ : Int := 8 * ((squareRank b.toSq : Int) +
          (if mp.color then 1 else -1)) + (squareFile b.toSq : Int)
        if 0 ≤ capZ ∧ hasItemAt cv capZ.toNat then some capZ.toNat else none
      | none => none
    else none

/-- The `frame(i)` recursion of `animate_move` as driven by `after`:
an in-between frame moves the clone and (at the midpoint) removes the
captured item; the final frame deletes the clone, removes a still
present captured item, places the piece on the to-square, draws the
arrow and invokes the callback within the same step. -/
def frameRun (toSq : Nat) (capSq : Option Nat) (frames : Nat) :
    CanvasState → Nat → List (List AEvent)
  | cv, i =>
    if frames ≤ i then
      [[AEvent.cloneGone] ++ (removeCapturedAt cv capSq).2 ++
        [AEvent.placedAt toSq, AEvent.arrowA, AEvent.cb]]
    else
      ([AEvent.moveFrag] ++
        (if i = frames / 2 then (removeCapturedAt cv capSq).2 else [])) ::
        frameRun toSq capSq frames
          (if i = frames / 2 then (removeCapturedAt cv capSq).1 else cv) (i + 1)
termination_by cv i => frames - i
decreasing_by omega

/-- `BoardCanvas.animate_move`: the three paths.  A missing moving
piece on `board_before`, or a missing canvas item on the from-square,
resets the canvas to the pushed position and invokes the callback at
once.  Otherwise the moving clone is created, the original item is
deleted, `captured_item_sq` is computed against the updated maps, and
the frame chain runs with `frame(0)` synchronous inside the call. -/
def animate_move (b : MoveCtx) (cv : CanvasState) (frames : Nat) :
    List (List AEvent) :=
  match b.pieceAtFrom with
  | none => [[AEvent.resetToFinal, AEvent.cb]]
  | some _ =>
    if hasItemAt cv b.fromSq then
      let delEvs := delEvents cv b.fromSq
      let cv1 := deleteAt cv b.fromSq
      let capSq := capturedItemSq b cv1
      match frameRun b.toSq capSq frames cv1 0 with
      | [] => []
      | s0 :: rest => ([AEvent.cloneMade] ++ delEvs ++ s0) :: rest
    else [[AEvent.resetToFinal, AEvent.cb]]

/-! Concrete data used by the counterexamples and witnesses. -/

/-- A rules engine that rejects every token. -/
def alwaysFailResolve : Str → Str → Option (Str × Str) := fun _ _ => none

/-- A miniature two-move rules engine: position s plays token e4 to
reach t, and t plays c6 to reach u. -/
def demoResolve : Str → Str → Option (Str × Str) := fun fen tok =>
  if fen = ['s'] ∧ tok = ['e', '4'] then some (['e', '2', 'e', '4'], ['t'])
  else if fen = ['t'] ∧ tok = ['c', '6'] then some (['c', '7', 'c', '6'], ['u'])
  else none

/-- Initial position label of the demo engine. -/
def demoFen0 : Str := ['s']

/-- Asset file whose single variation has an illegal first token. -/
def c1File : List Str := ["** Op:".toList, "* Var:".toList, "1. zz".toList]

/-- Asset file with one resolvable move followed by an illegal
token. -/
def demoFile : List Str := ["** Op:".toList, "* Var:".toList, "1. e4 zz".toList]

/-- The variation `demoFile` parses to with the demo engine: the
illegal token zz truncates the sequences after one resolved move. -/
def demoParsedVar : Variation :=
  ⟨"Var".toList, [['e', '4']], [['e', '2', 'e', '4']], [['s'], ['t']]⟩

/-- The two-ply variation the demo engine accepts. -/
def demoVar : Variation :=
  ⟨['V'], [['e', '4'], ['c', '6']], [['e', '2', 'e', '4'], ['c', '7', 'c', '6']],
   [['s'], ['t'], ['u']]⟩

/-- App state with demoVar selected and no plies applied. -/
def demoApp : App := ⟨[(['O'], [demoVar])], some ['O'], some 0, 0, false⟩

/-- Ready system: demoVar selected, nothing pending, empty trace. -/
def demoSys : Sys := ⟨demoApp, [], []⟩

/-- The system right after Next is clicked on `demoSys`: ply 0 is
animating (frame(1) pending), the cursor still reads 0. -/
def demoSysMid : Sys :=
  ⟨demoApp, [Task.frame ⟨demoVar, 2, 1, 1⟩ 1],
   [CEvent.animStart 0, CEvent.frameMove 0]⟩

/-- The system after a second Next click lands while ply 0 is still
animating: two frame chains pending, two animate calls in the trace
with no completion between them. -/
def demoSysTwo : Sys :=
  ⟨demoApp, [Task.frame ⟨demoVar, 2, 1, 1⟩ 1, Task.frame ⟨demoVar, 2, 1, 1⟩ 1],
   [CEvent.animStart 0, CEvent.frameMove 0, CEvent.animStart 0, CEvent.frameMove 0]⟩

/-- The system right after a jump to ply 2 is requested on `demoSys`:
ply 0 is animating towards the captured target 2. -/
def demoSysJump : Sys :=
  ⟨demoApp, [Task.frame ⟨demoVar, 2, 1, 2⟩ 1],
   [CEvent.animStart 0, CEvent.frameMove 0]⟩

theorem applyEvts_nil (m : OpeningsMap) : applyEvts [] m = m := rfl

theorem applyEvts_append (a b : List (Str × Variation)) (m : OpeningsMap) :
    applyEvts (a ++ b) m = applyEvts b (applyEvts a m) :=
  List.foldl_append _ _ _ _

theorem flushLight_curOpening (l : LightState) :
    (flushLight l).curOpening = l.curOpening := by
  rcases l with ⟨op, vn, ml⟩
  rcases op with _ | op <;> rcases vn with _ | vn <;>
    simp [flushLight] <;> split_ifs <;> rfl

theorem flushLight_curVariation (l : LightState) :
    (flushLight l).curVariation = l.curVariation := by
  rcases l with ⟨op, vn, ml⟩
  rcases op with _ | op <;> rcases vn with _ | vn <;>
    simp [flushLight] <;> split_ifs <;> rfl

theorem flush_decomp (resolve : Str → Str → Option (Str × Str)) (fen0 : Str)
    (st : ParseState) :
    flush_variation resolve fen0 st =
      { openings := applyEvts (flushEmit resolve fen0 (lightOf st)) st.openings,
        curOpening := st.curOpening,
        curVariation := st.curVariation,
        curMovesLines := (flushLight (lightOf st)).curMovesLines,
        diags := st.diags ++ flushDiags resolve fen0 (lightOf st) } := by
  rcases st with ⟨m, op, vn, ml, d⟩
  rcases op with _ | op <;> rcases vn with _ | vn
  · simp [flush_variation, flushEmit, flushDiags, flushLight, lightOf, applyEvts]
  · simp [flush_variation, flushEmit, flushDiags, flushLight, lightOf, applyEvts]
  · simp [flush_variation, flushEmit, flushDiags, flushLight, lightOf, applyEvts]
  · simp only [flush_variation, flushEmit, flushDiags, flushLight, lightOf]
    split_ifs with hb
    · simp [applyEvts]
    · rcases hbad : (resolveTokens resolve fen0 (extractTokens ml)).bad with _ | t <;>
        simp [applyEvts, hbad]

theorem processLine_decomp (resolve : Str → Str → Option (Str × Str)) (fen0 : Str)
    (st : ParseState) (line : Str) :
    processLine resolve fen0 st line =
      { openings := applyEvts (lineEmit resolve fen0 (lightOf st) line) st.openings,
        curOpening := (lightLine (lightOf st) line).curOpening,
        curVariation := (lightLine (lightOf st) line).curVariation,
        curMovesLines := (lightLine (lightOf st) line).curMovesLines,
        diags := st.diags ++ lineDiags resolve fen0 (lightOf st) line } := by
  rw [processLine, lightLine, lineEmit, lineDiags]
  by_cases h2 : startsTwoStars (strip line) = true
  · simp [h2, flush_decomp, lightOf, flushLight_curOpening, flushLight_curVariation]
  · by_cases h1 : startsStar (strip line) = true
    · simp [h2, h1, flush_decomp, lightOf, flushLight_curOpening, flushLight_curVariation]
    · by_cases hs : isSepLine (strip line) = true
      · simp [h2, h1, hs, flush_decomp, lightOf, flushLight_curOpening,
          flushLight_curVariation]
      · by_cases hc : st.curVariation ≠ none ∧ strip line ≠ []
        · simp [h2, h1, hs, hc, lightOf, applyEvts]
        · simp [h2, h1, hs, hc, lightOf, applyEvts]

theorem processLines_decomp (resolve : Str → Str → Option (Str × Str)) (fen0 : Str) :
    ∀ (lines : List Str) (st : ParseState),
    processLines resolve fen0 st lines =
      { openings := applyEvts (linesEmit resolve fen0 (lightOf st) lines) st.openings,
        curOpening := (lightRun (lightOf st) lines).curOpening,
        curVariation := (lightRun (lightOf st) lines).curVariation,
        curMovesLines := (lightRun (lightOf st) lines).curMovesLines,
        diags := st.diags ++ linesDiags resolve fen0 (lightOf st) lines }
  | [], st => by
    simp [processLines, linesEmit, linesDiags, lightRun, applyEvts_nil, lightOf]
  | line :: rest, st => by
    have hstep : processLines resolve fen0 st (line :: rest) =
        processLines resolve fen0 (processLine resolve fen0 st line) rest := rfl
    rw [hstep, processLines_decomp resolve fen0 rest, processLine_decomp]
    simp only [linesEmit, linesDiags, lightRun, List.foldl_cons, applyEvts_append,
      List.append_assoc]
    rfl

theorem parseFile_decomp (resolve : Str → Str → Option (Str × Str)) (fen0 : Str)
    (m : OpeningsMap) (d : List Diag) (lines : List Str) :
    parseFile resolve fen0 (m, d) lines =
      (applyEvts (fileEmit resolve fen0 lines) m, d ++ fileDiags resolve fen0 lines) := by
  rw [parseFile]
  rw [processLines_decomp, flush_decomp]
  simp only [fileEmit, fileDiags, applyEvts_append, List.append_assoc]
  rfl

theorem parse_assets_decomp (resolve : Str → Str → Option (Str × Str)) (fen0 : Str) :
    ∀ (files : List (List Str)) (m : OpeningsMap) (d : List Diag),
    files.foldl (parseFile resolve fen0) (m, d) =
      (applyEvts ((files.map (fileEmit resolve fen0)).flatten) m,
       d ++ (files.map (fileDiags resolve fen0)).flatten)
  | [], m, d => by simp [applyEvts_nil]
  | lines :: rest, m, d => by
    simp only [List.foldl_cons, List.map_cons, List.flatten_cons]
    rw [parseFile_decomp, parse_assets_decomp resolve fen0 rest, applyEvts_append,
      List.append_assoc]

theorem lookup_appendVar (k k2 : Str) (v : Variation) :
    ∀ m : OpeningsMap,
    lookupVars k (appendVar k2 v m) =
      lookupVars k m ++ (if k2 = k then [v] else [])
  | [] => by
    by_cases h : k2 = k <;> simp [appendVar, lookupVars, h]
  | (k3, vs) :: rest => by
    by_cases h3 : k3 = k2
    · subst h3
      by_cases h : k3 = k <;> simp [appendVar, lookupVars, h]
    · by_cases h : k3 = k
      · subst h
        have hne : ¬ k2 = k3 := fun hh => h3 hh.symm
        simp [appendVar, lookupVars, h3, hne]
      · simp [appendVar, lookupVars, h3, h, lookup_appendVar k k2 v rest]

theorem lookup_applyEvts (k : Str) :
    ∀ (evts : List (Str × Variation)) (m : OpeningsMap),
    lookupVars k (applyEvts evts m) = lookupVars k m ++ filterKey k evts
  | [], m => by simp [applyEvts_nil, filterKey]
  | p :: evts, m => by
    have hcons : applyEvts (p :: evts) m = applyEvts evts (appendVar p.1 p.2 m) := rfl
    rw [hcons, lookup_applyEvts k evts, lookup_appendVar]
    by_cases h : p.1 = k <;> simp [filterKey, h, List.append_assoc]

theorem keysOf_appendVar (k : Str) (v : Variation) :
    ∀ m : OpeningsMap,
    keysOf (appendVar k v m) = if k ∈ keysOf m then keysOf m else keysOf m ++ [k]
  | [] => by simp [appendVar, keysOf]
  | (k2, vs) :: rest => by
    by_cases h : k2 = k
    · subst h; simp [appendVar, keysOf]
    · have hne : ¬ k = k2 := fun hh => h hh.symm
      have hcons : keysOf (appendVar k v ((k2, vs) :: rest)) =
          k2 :: keysOf (appendVar k v rest) := by
        simp [appendVar, if_neg h, keysOf]
      rw [hcons, keysOf_appendVar k v rest]
      by_cases hm : k ∈ keysOf rest
      · simp only [keysOf] at hm
        simp [keysOf, hm, hne]
      · simp only [keysOf] at hm
        simp [keysOf, hm, hne]

theorem nodup_keys_appendVar (k : Str) (v : Variation) (m : OpeningsMap)
    (h : (keysOf m).Nodup) : (keysOf (appendVar k v m)).Nodup := by
  rw [keysOf_appendVar]
  split_ifs with hm
  · exact h
  · simp [List.nodup_append, h, hm]

theorem nodup_keys_applyEvts :
    ∀ (evts : List (Str × Variation)) (m : OpeningsMap),
    (keysOf m).Nodup → (keysOf (applyEvts evts m)).Nodup
  | [], _, h => h
  | p :: evts, m, h =>
    nodup_keys_applyEvts evts (appendVar p.1 p.2 m) (nodup_keys_appendVar _ _ _ h)

theorem resolveTokens_lengths (resolve : Str → Str → Option (Str × Str)) :
    ∀ (fen : Str) (toks : List Str),
    (resolveTokens resolve fen toks).sans.length =
      (resolveTokens resolve fen toks).ucis.length ∧
    (resolveTokens resolve fen toks).fens.length =
      (resolveTokens resolve fen toks).ucis.length
  | _, [] => by simp [resolveTokens]
  | fen, tok :: rest => by
    rcases h : resolve fen (stripAnnot tok) with _ | ⟨uci, fen2⟩
    · simp [resolveTokens, h]
    · have ih := resolveTokens_lengths resolve fen2 rest
      simp [resolveTokens, h, ih.1, ih.2]

theorem resolveTokens_take (resolve : Str → Str → Option (Str × Str)) :
    ∀ (fen : Str) (toks : List Str),
    (resolveTokens resolve fen toks).sans =
      toks.take (resolveTokens resolve fen toks).sans.length
  | _, [] => by simp [resolveTokens]
  | fen, tok :: rest => by
    rcases h : resolve fen (stripAnnot tok) with _ | ⟨uci, fen2⟩
    · simp [resolveTokens, h]
    · have ih := resolveTokens_take resolve fen2 rest
      simp only [resolveTokens, h, List.length_cons, List.take_succ_cons]
      exact congrArg (tok :: ·) ih

theorem resolveTokens_bad_none (resolve : Str → Str → Option (Str × Str)) :
    ∀ (fen : Str) (toks : List Str),
    (resolveTokens resolve fen toks).bad = none →
    (resolveTokens resolve fen toks).sans = toks
  | _, [], _ => by simp [resolveTokens]
  | fen, tok :: rest, hb => by
    rcases h : resolve fen (stripAnnot tok) with _ | ⟨uci, fen2⟩
    · rw [resolveTokens, h] at hb; simp at hb
    · rw [resolveTokens, h] at hb ⊢
      simp only at hb ⊢
      exact congrArg (tok :: ·) (resolveTokens_bad_none resolve fen2 rest hb)

theorem resolveTokens_bad_some (resolve : Str → Str → Option (Str × Str)) :
    ∀ (fen : Str) (toks : List Str) (t : Str),
    (resolveTokens resolve fen toks).bad = some t →
    toks[(resolveTokens resolve fen toks).sans.length]? = some t ∧
    ∃ lf : Str, (fen :: (resolveTokens resolve fen toks).fens).getLast? = some lf ∧
      resolve lf (stripAnnot t) = none
  | _, [], t, hb => by simp [resolveTokens] at hb
  | fen, tok :: rest, t, hb => by
    rcases h : resolve fen (stripAnnot tok) with _ | ⟨uci, fen2⟩
    · rw [resolveTokens, h] at hb
      simp only [Option.some.injEq] at hb
      subst hb
      refine ⟨by simp [resolveTokens, h], fen, by simp [resolveTokens, h], h⟩
    · rw [resolveTokens, h] at hb
      simp only at hb
      have ih := resolveTokens_bad_some resolve fen2 rest t hb
      constructor
      · simpa [resolveTokens, h] using ih.1
      · rcases ih.2 with ⟨lf, hlf, hres⟩
        refine ⟨lf, ?_, hres⟩
        simp only [resolveTokens, h]
        rw [List.getLast?_cons_cons]
        exact hlf

theorem mem_lineEmit (resolve : Str → Str → Option (Str × Str)) (fen0 : Str)
    (l : LightState) (line : Str) (p : Str × Variation)
    (hp : p ∈ lineEmit resolve fen0 l line) : p ∈ flushEmit resolve fen0 l := by
  rw [lineEmit] at hp
  split_ifs at hp with h
  · exact hp
  · simp at hp

theorem mem_linesEmit (resolve : Str → Str → Option (Str × Str)) (fen0 : Str) :
    ∀ (l : LightState) (lines : List Str) (p : Str × Variation),
    p ∈ linesEmit resolve fen0 l lines → ∃ l2, p ∈ flushEmit resolve fen0 l2
  | _, [], p, hp => by simp [linesEmit] at hp
  | l, line :: rest, p, hp => by
    rw [linesEmit] at hp
    rcases List.mem_append.mp hp with h | h
    · exact ⟨l, mem_lineEmit resolve fen0 l line p h⟩
    · exact mem_linesEmit resolve fen0 (lightLine l line) rest p h

theorem mem_flushEmit (resolve : Str → Str → Option (Str × Str)) (fen0 : Str)
    (l : LightState) (p : Str × Variation) (hp : p ∈ flushEmit resolve fen0 l) :
    ∃ op vn, l.curOpening = some op ∧ l.curVariation = some vn ∧
      p = (op, ⟨vn, (resolveTokens resolve fen0 (extractTokens l.curMovesLines)).sans,
                    (resolveTokens resolve fen0 (extractTokens l.curMovesLines)).ucis,
        fen0 :: (resolveTokens resolve fen0 (extractTokens l.curMovesLines)).fens⟩) := by
  rcases l with ⟨op, vn, ml⟩
  rcases op with _ | op <;> rcases vn with _ | vn <;> simp [flushEmit] at hp
  rcases hp with ⟨hb, hp⟩
  exact ⟨op, vn, rfl, rfl, hp⟩

theorem flushEmit_none (resolve : Str → Str → Option (Str × Str)) (fen0 : Str)
    (l : LightState) (h : l.curOpening = none) : flushEmit resolve fen0 l = [] := by
  rcases l with ⟨op, vn, ml⟩
  cases h
  rcases vn with _ | vn <;> rfl

theorem flushEmit_length (resolve : Str → Str → Option (Str × Str)) (fen0 : Str)
    (l : LightState) : (flushEmit resolve fen0 l).length ≤ 1 := by
  rcases l with ⟨op, vn, ml⟩
  rcases op with _ | op <;> rcases vn with _ | vn <;> simp [flushEmit]
  split_ifs <;> simp

theorem plain_no_emit (resolve : Str → Str → Option (Str × Str)) (fen0 : Str)
    (l : LightState) (line : Str) (h : plainLine line = true) :
    lineEmit resolve fen0 l line = [] := by
  simp only [plainLine, Bool.and_eq_true, Bool.not_eq_true'] at h
  rw [lineEmit]
  simp [h.1.1, h.1.2, h.2]

theorem plain_lightLine (l : LightState) (line : Str) (h : plainLine line = true) :
    (lightLine l line).curOpening = l.curOpening ∧
    (lightLine l line).curVariation = l.curVariation := by
  simp only [plainLine, Bool.and_eq_true, Bool.not_eq_true'] at h
  rw [lightLine]
  simp only [h.1.1, h.1.2, h.2, Bool.false_eq_true, if_false]
  split_ifs with hc
  · exact ⟨rfl, rfl⟩
  · exact ⟨rfl, rfl⟩

theorem plain_run (resolve : Str → Str → Option (Str × Str)) (fen0 : Str) :
    ∀ (lines : List Str) (l : LightState),
    (∀ ln ∈ lines, plainLine ln = true) →
    (lightRun l lines).curOpening = l.curOpening ∧
    (lightRun l lines).curVariation = l.curVariation ∧
    linesEmit resolve fen0 l lines = []
  | [], l, _ => ⟨rfl, rfl, rfl⟩
  | line :: rest, l, h => by
    have hline := h line (List.mem_cons_self _ _)
    have hrest : ∀ ln ∈ rest, plainLine ln = true :=
      fun ln hln => h ln (List.mem_cons_of_mem _ hln)
    have ih := plain_run resolve fen0 rest (lightLine l line) hrest
    have hl := plain_lightLine l line hline
    refine ⟨?_, ?_, ?_⟩
    · rw [show lightRun l (line :: rest) = lightRun (lightLine l line) rest from rfl,
        ih.1, hl.1]
    · rw [show lightRun l (line :: rest) = lightRun (lightLine l line) rest from rfl,
        ih.2.1, hl.2]
    · rw [linesEmit, plain_no_emit resolve fen0 l line hline, ih.2.2]
      rfl

theorem lightRun_append (l : LightState) (A B : List Str) :
    lightRun l (A ++ B) = lightRun (lightRun l A) B :=
  List.foldl_append _ _ _ _

theorem linesEmit_append (resolve : Str → Str → Option (Str × Str)) (fen0 : Str) :
    ∀ (A B : List Str) (l : LightState),
    linesEmit resolve fen0 l (A ++ B) =
      linesEmit resolve fen0 l A ++ linesEmit resolve fen0 (lightRun l A) B
  | [], B, l => rfl
  | line :: rest, B, l => by
    show lineEmit resolve fen0 l line ++
        linesEmit resolve fen0 (lightLine l line) (rest ++ B) =
      (lineEmit resolve fen0 l line ++ linesEmit resolve fen0 (lightLine l line) rest) ++
        linesEmit resolve fen0 (lightRun (lightLine l line) rest) B
    rw [linesEmit_append resolve fen0 rest B (lightLine l line), List.append_assoc]

theorem lightLine_twoStars (l : LightState) (line : Str)
    (h2 : startsTwoStars (strip line) = true) :
    lightLine l line = ⟨some (parseName (strip line)), none, []⟩ ∧
    (∀ resolve fen0, lineEmit resolve fen0 l line = flushEmit resolve fen0 l) := by
  constructor
  · rw [lightLine]; simp [h2]
  · intro resolve fen0; rw [lineEmit]; simp [h2]

theorem lightLine_star (l : LightState) (line : Str)
    (h2 : startsTwoStars (strip line) = false)
    (h1 : startsStar (strip line) = true) :
    lightLine l line = ⟨l.curOpening, some (parseName (strip line)), []⟩ ∧
    (∀ resolve fen0, lineEmit resolve fen0 l line = flushEmit resolve fen0 l) := by
  constructor
  · rw [lightLine]; simp [h2, h1, flushLight_curOpening]
  · intro resolve fen0; rw [lineEmit]; simp [h2, h1]

theorem lightLine_sep (l : LightState) (line : Str)
    (h2 : startsTwoStars (strip line) = false)
    (h1 : startsStar (strip line) = false)
    (hs : isSepLine (strip line) = true) :
    lightLine l line = ⟨l.curOpening, none, []⟩ ∧
    (∀ resolve fen0, lineEmit resolve fen0 l line = flushEmit resolve fen0 l) := by
  constructor
  · rw [lightLine]; simp [h2, h1, hs, flushLight_curOpening]
  · intro resolve fen0; rw [lineEmit]; simp [h2, h1, hs]

theorem sep_not_star (ls : Str) (h : isSepLine ls = true) :
    startsTwoStars ls = false ∧ startsStar ls = false := by
  rcases ls with _ | ⟨c, rest⟩
  · simp [isSepLine] at h
  · rw [isSepLine] at h
    simp only [Bool.and_eq_true, decide_eq_true_eq] at h
    rcases h with ⟨hc, _⟩
    subst hc
    exact ⟨rfl, rfl⟩

theorem filterKey_append (k : Str) (a b : List (Str × Variation)) :
    filterKey k (a ++ b) = filterKey k a ++ filterKey k b := by
  simp [filterKey]

theorem filterKey_flatten (k : Str) :
    ∀ ls : List (List (Str × Variation)),
    filterKey k ls.flatten = (ls.map (filterKey k)).flatten
  | [] => rfl
  | a :: rest => by
    simp only [List.flatten_cons, filterKey_append, List.map_cons]
    rw [filterKey_flatten k rest]

theorem filterKey_flushEmit_ne (resolve : Str → Str → Option (Str × Str)) (fen0 : Str)
    (l : LightState) (op k : Str) (hop : l.curOpening = some op) (hne : k ≠ op) :
    filterKey k (flushEmit resolve fen0 l) = [] := by
  rcases l with ⟨lop, vn, ml⟩
  cases hop
  rcases vn with _ | vn
  · rfl
  · rw [flushEmit]
    split_ifs with hb
    · rfl
    · simp only [filterKey, List.filter]
      have : ¬ op = k := fun hh => hne hh.symm
      simp [this]

theorem filterKey_length_le (k : Str) (evts : List (Str × Variation)) :
    (filterKey k evts).length ≤ evts.length := by
  simp only [filterKey, List.length_map]
  exact List.length_filter_le _ _

theorem drain_empty (fuel : Nat) (sys : Sys) (h : sys.pending = []) :
    drain fuel sys = some sys := by
  cases fuel
  · simp [drain, h]
  · simp [drain, h]

theorem countStarts_append (a b : List CEvent) :
    countStarts (a ++ b) = countStarts a + countStarts b := by
  simp [countStarts, List.filter_append]

theorem countCbs_append (a b : List CEvent) :
    countCbs (a ++ b) = countCbs a + countCbs b := by
  simp [countCbs, List.filter_append]

theorem countResets_append (a b : List CEvent) :
    countResets (a ++ b) = countResets a + countResets b := by
  simp [countResets, List.filter_append]

/-- One in-flight animation chain, left alone, runs to completion:
after exactly `chainFuel s i` queue steps the queue is empty, the
cursor has advanced to the captured target, every other app field is
untouched, and the appended trace shows one animate call per
remaining ply, one completion callback per ply (the current one
included), one canvas reset per callback, and no overlap. -/
theorem chain_run :
    ∀ (n : Nat) (s : Session) (i : Nat) (sys : Sys),
    chainFuel s i = n →
    sys.pending = [Task.frame s i] →
    1 ≤ i → i ≤ ANIM_FRAMES →
    s.maxMoves = s.varData.moves_uci.length →
    1 ≤ s.nextIndex → s.nextIndex ≤ s.target → s.target ≤ s.maxMoves →
    s.varData.states_fen ≠ [] →
    ∃ delta : List CEvent,
      drain n sys =
        some ⟨{ sys.app with currentMoveIndex := s.target }, [], sys.trace ++ delta⟩ ∧
      countStarts delta = s.target - s.nextIndex ∧
      countCbs delta = s.target - s.nextIndex + 1 ∧
      countResets delta = s.target - s.nextIndex + 1 ∧
      seqAux true delta = true := by
  intro n
  induction n using Nat.strong_induction_on with
  | _ n ih =>
    intro s i sys hfuel hpend hi1 hi2 hmax hn1 hnt htm hfen
    have hF : ANIM_FRAMES = 25 := rfl
    rw [hF] at hi2
    rw [chainFuel, hF] at hfuel
    have hn : 1 ≤ n := by omega
    obtain ⟨m, rfl⟩ : ∃ m, n = m + 1 := ⟨n - 1, by omega⟩
    have hdrain : drain (m + 1) sys =
        (processTask { sys with pending := [] } (Task.frame s i)).bind (drain m) := by
      show (match sys.pending with
        | [] => some sys
        | t :: rest => (processTask { sys with pending := rest } t).bind (drain m)) = _
      rw [hpend]
    by_cases hlast : ANIM_FRAMES ≤ i
    · -- final frame: completion callback runs
      rw [hF] at hlast
      have hi25 : i = 25 := by omega
      have hproc : processTask { sys with pending := [] } (Task.frame s i) =
          step_to s.varData s.maxMoves
            { app := { sys.app with currentMoveIndex := s.nextIndex },
              pending := [],
              trace := sys.trace ++
                [CEvent.arrowDrawn, CEvent.cbFired (s.nextIndex - 1),
                 CEvent.canvasReset s.nextIndex, CEvent.arrowDrawn,
                 CEvent.checkShown, CEvent.statusUpd s.nextIndex] }
            s.nextIndex s.target := by
        rw [processTask, if_pos (by rw [hF]; omega), after_anim]
        simp [List.append_assoc]
      by_cases heq : s.nextIndex = s.target
      · -- the callback finds the target reached: chain ends
        have hstep : step_to s.varData s.maxMoves
            { app := { sys.app with currentMoveIndex := s.nextIndex },
              pending := [],
              trace := sys.trace ++
                [CEvent.arrowDrawn, CEvent.cbFired (s.nextIndex - 1),
                 CEvent.canvasReset s.nextIndex, CEvent.arrowDrawn,
                 CEvent.checkShown, CEvent.statusUpd s.nextIndex] }
            s.nextIndex s.target =
            some { app := { sys.app with currentMoveIndex := s.target },
                   pending := [],
                   trace := sys.trace ++
                     [CEvent.arrowDrawn, CEvent.cbFired (s.nextIndex - 1),
                      CEvent.canvasReset s.nextIndex, CEvent.arrowDrawn,
                      CEvent.checkShown, CEvent.statusUpd s.nextIndex,
                      CEvent.statusUpd s.target] } := by
          rw [step_to, if_pos heq]
          simp [List.append_assoc]
        refine ⟨[CEvent.arrowDrawn, CEvent.cbFired (s.nextIndex - 1),
          CEvent.canvasReset s.nextIndex, CEvent.arrowDrawn,
          CEvent.checkShown, CEvent.statusUpd s.nextIndex,
          CEvent.statusUpd s.target], ?_, ?_, ?_, ?_, ?_⟩
        · rw [hdrain, hproc, hstep, Option.bind]
          rw [drain_empty m _ rfl]
        · simp [countStarts, List.filter, isStart, heq]
        · simp [countCbs, List.filter, isCb, heq]
        · simp [countResets, List.filter, isReset, heq]
        · simp [seqAux]
      · -- the callback continues: the animate call of the next ply starts
        have hlt : s.nextIndex < s.target := by omega
        have hlt2 : s.nextIndex < s.varData.moves_uci.length := by omega
        obtain ⟨mv, hacc⟩ : ∃ mv, s.varData.moves_uci[s.nextIndex + 1 - 1]? = some mv := by
          have h11 : s.nextIndex + 1 - 1 = s.nextIndex := by omega
          rw [h11]
          exact ⟨_, List.getElem?_eq_getElem hlt2⟩
        obtain ⟨f0, hfacc⟩ : ∃ f0, s.varData.states_fen[0]? = some f0 :=
          ⟨_, List.getElem?_eq_getElem (List.length_pos.mpr hfen)⟩
        have hstep : step_to s.varData s.maxMoves
            { app := { sys.app with currentMoveIndex := s.nextIndex },
              pending := [],
              trace := sys.trace ++
                [CEvent.arrowDrawn, CEvent.cbFired (s.nextIndex - 1),
                 CEvent.canvasReset s.nextIndex, CEvent.arrowDrawn,
                 CEvent.checkShown, CEvent.statusUpd s.nextIndex] }
            s.nextIndex s.target =
            some { app := { sys.app with currentMoveIndex := s.nextIndex },
                   pending := [Task.frame ⟨s.varData, s.maxMoves, s.nextIndex + 1, s.target⟩ 1],
                   trace := sys.trace ++
                     [CEvent.arrowDrawn, CEvent.cbFired (s.nextIndex - 1),
                      CEvent.canvasReset s.nextIndex, CEvent.arrowDrawn,
                      CEvent.checkShown, CEvent.statusUpd s.nextIndex,
                      CEvent.animStart s.nextIndex, CEvent.frameMove 0] } := by
          simp only [step_to, if_neg heq, if_pos hlt]
          rw [hacc, hfacc]
          simp [List.append_assoc]
        obtain ⟨delta2, hd2, hst2, hcb2, hre2, hsq2⟩ :=
          ih m (by omega) ⟨s.varData, s.maxMoves, s.nextIndex + 1, s.target⟩ 1
            { app := { sys.app with currentMoveIndex := s.nextIndex },
              pending := [Task.frame ⟨s.varData, s.maxMoves, s.nextIndex + 1, s.target⟩ 1],
              trace := sys.trace ++
                [CEvent.arrowDrawn, CEvent.cbFired (s.nextIndex - 1),
                 CEvent.canvasReset s.nextIndex, CEvent.arrowDrawn,
                 CEvent.checkShown, CEvent.statusUpd s.nextIndex,
                 CEvent.animStart s.nextIndex, CEvent.frameMove 0] }
            (by rw [chainFuel, hF]; dsimp only; omega) rfl
            (by omega) (by rw [hF]; omega) hmax (by dsimp only; omega)
            (by dsimp only; omega) htm hfen
        refine ⟨[CEvent.arrowDrawn, CEvent.cbFired (s.nextIndex - 1),
          CEvent.canvasReset s.nextIndex, CEvent.arrowDrawn,
          CEvent.checkShown, CEvent.statusUpd s.nextIndex,
          CEvent.animStart s.nextIndex, CEvent.frameMove 0] ++ delta2,
          ?_, ?_, ?_, ?_, ?_⟩
        · rw [hdrain, hproc, hstep, Option.bind, hd2]
          simp [List.append_assoc]
        · rw [countStarts_append, hst2]
          dsimp only
          simp [countStarts, List.filter, isStart]
          omega
        · rw [countCbs_append, hcb2]
          dsimp only
          simp [countCbs, List.filter, isCb]
          omega
        · rw [countResets_append, hre2]
          dsimp only
          simp [countResets, List.filter, isReset]
          omega
        · rw [List.cons_append]
          simp only [seqAux]
          exact hsq2
    · -- in-between frame: move the clone, schedule the next frame
      rw [hF] at hlast
      have hproc : processTask { sys with pending := [] } (Task.frame s i) =
          some { sys with pending := [Task.frame s (i + 1)],
                          trace := sys.trace ++ [CEvent.frameMove i] } := by
        rw [processTask, if_neg (by rw [hF]; omega)]
        simp
      obtain ⟨delta2, hd2, hst2, hcb2, hre2, hsq2⟩ :=
        ih m (by omega) s (i + 1)
          { sys with pending := [Task.frame s (i + 1)],
                     trace := sys.trace ++ [CEvent.frameMove i] }
          (by rw [chainFuel, hF]; omega) rfl
          (by omega) (by rw [hF]; omega) hmax hn1 hnt htm hfen
      refine ⟨[CEvent.frameMove i] ++ delta2, ?_, ?_, ?_, ?_, ?_⟩
      · rw [hdrain, hproc, Option.bind, hd2]
        simp [List.append_assoc]
      · rw [countStarts_append, hst2]
        simp [countStarts, List.filter, isStart]
      · rw [countCbs_append, hcb2]
        simp [countCbs, List.filter, isCb]
      · rw [countResets_append, hre2]
        simp [countResets, List.filter, isReset]
      · simp only [List.cons_append, List.nil_append, seqAux]
        exact hsq2

theorem parse_single_lookup (resolve : Str → Str → Option (Str × Str)) (fen0 : Str)
    (lines : List Str) (k : Str) :
    lookupVars k (parse_assets resolve fen0 [lines]).1 =
      filterKey k (fileEmit resolve fen0 lines) := by
  rw [parse_assets, parse_assets_decomp]
  dsimp only
  rw [lookup_applyEvts]
  rw [show (List.map (fileEmit resolve fen0) [lines]).flatten =
    fileEmit resolve fen0 lines ++ [] from rfl, List.append_nil]
  rfl

theorem noTwoStars_run (resolve : Str → Str → Option (Str × Str)) (fen0 : Str) :
    ∀ (lines : List Str) (l : LightState), l.curOpening = none →
    (∀ ln ∈ lines, startsTwoStars (strip ln) = false) →
    linesEmit resolve fen0 l lines = [] ∧ (lightRun l lines).curOpening = none
  | [], l, hop, _ => ⟨rfl, hop⟩
  | line :: rest, l, hop, h => by
    have hline := h line (List.mem_cons_self _ _)
    have hrest : ∀ ln ∈ rest, startsTwoStars (strip ln) = false :=
      fun ln hln => h ln (List.mem_cons_of_mem _ hln)
    have hemit : lineEmit resolve fen0 l line = [] := by
      rw [lineEmit]
      by_cases h1 : startsStar (strip line) = true
      · simp [hline, h1, flushEmit_none resolve fen0 l hop]
      · by_cases hs : isSepLine (strip line) = true
        · simp [hline, h1, hs, flushEmit_none resolve fen0 l hop]
        · simp [hline, h1, hs]
    have hlight : (lightLine l line).curOpening = none := by
      rw [lightLine]
      by_cases h1 : startsStar (strip line) = true
      · simp [hline, h1, flushLight_curOpening, hop]
      · by_cases hs : isSepLine (strip line) = true
        · simp [hline, h1, hs, flushLight_curOpening, hop]
        · simp only [hline, h1, hs, Bool.false_eq_true, if_false]
          split_ifs
          · exact hop
          · exact hop
    have ih := noTwoStars_run resolve fen0 rest (lightLine l line) hlight hrest
    refine ⟨?_, ih.2⟩
    rw [linesEmit, hemit, ih.1]
    rfl

/-- C1, counterexample: the claim says a Variation whose token
resolution yields zero valid moves is not added to its Opening.  But
with a rules engine rejecting every token, `c1File` (one Opening, one
Variation, an illegal first token) parses to a mapping that still
contains that Variation, with zero resolved moves. -/
theorem C1_counterexample :
    ¬ (∀ p ∈ (parse_assets alwaysFailResolve demoFen0 [c1File]).1,
        ∀ v ∈ p.2, v.moves_uci ≠ []) := by
  decide

/-- C1, amended: `flush_variation` appends the Variation to its
Opening whenever an Opening and a Variation are open and the
accumulated move text is non-blank, regardless of how many tokens
resolve (zero included); only a Variation whose accumulated move text
is blank is discarded. -/
theorem C1_amended_thm :
    (∀ (resolve : Str → Str → Option (Str × Str)) (fen0 : Str) (st : ParseState)
       (op vn : Str), st.curOpening = some op → st.curVariation = some vn →
       strip (joinNL st.curMovesLines) ≠ [] →
       ∃ v : Variation, v.name = vn ∧
         (flush_variation resolve fen0 st).openings = appendVar op v st.openings) ∧
    (∀ (resolve : Str → Str → Option (Str × Str)) (fen0 : Str) (st : ParseState),
       strip (joinNL st.curMovesLines) = [] →
       (flush_variation resolve fen0 st).openings = st.openings) := by
  constructor
  · intro resolve fen0 st op vn hop hvn hnb
    rcases st with ⟨m, sop, svn, ml, d⟩
    cases hop
    cases hvn
    dsimp only at hnb
    refine ⟨⟨vn, (resolveTokens resolve fen0 (extractTokens ml)).sans,
      (resolveTokens resolve fen0 (extractTokens ml)).ucis,
      fen0 :: (resolveTokens resolve fen0 (extractTokens ml)).fens⟩, rfl, ?_⟩
    rw [flush_variation]
    dsimp only
    rw [if_neg hnb]
  · intro resolve fen0 st hb
    rcases st with ⟨m, sop, svn, ml, d⟩
    dsimp only at hb
    rcases sop with _ | sop <;> rcases svn with _ | svn
    · rfl
    · rfl
    · rfl
    · rw [flush_variation]
      dsimp only
      rw [if_pos hb]

/-- Witness for C1_amended_thm: a concrete non-blank state flushes to
an appended variation, and a concrete blank state flushes to an
unchanged mapping. -/
theorem C1_witness :
    (∃ v : Variation, v.name = ['V'] ∧
      (flush_variation alwaysFailResolve demoFen0
        ⟨[], some ['O'], some ['V'], [['z', 'z']], []⟩).openings =
        appendVar ['O'] v []) ∧
    (flush_variation alwaysFailResolve demoFen0
      ⟨[], some ['O'], some ['V'], [], []⟩).openings = [] :=
  ⟨C1_amended_thm.1 alwaysFailResolve demoFen0
      ⟨[], some ['O'], some ['V'], [['z', 'z']], []⟩ ['O'] ['V'] rfl rfl (by decide),
   C1_amended_thm.2 alwaysFailResolve demoFen0
      ⟨[], some ['O'], some ['V'], [], []⟩ (by decide)⟩

theorem parse_mem_shape (resolve : Str → Str → Option (Str × Str)) (fen0 : Str)
    (files : List (List Str)) (k : Str) (v : Variation)
    (hv : v ∈ lookupVars k (parse_assets resolve fen0 files).1) :
    ∃ toks : List Str,
      v.moves_san = (resolveTokens resolve fen0 toks).sans ∧
      v.moves_uci = (resolveTokens resolve fen0 toks).ucis ∧
      v.states_fen = fen0 :: (resolveTokens resolve fen0 toks).fens := by
  rw [parse_assets, parse_assets_decomp] at hv
  dsimp only at hv
  rw [lookup_applyEvts] at hv
  rw [show lookupVars k ([] : OpeningsMap) = [] from rfl, List.nil_append] at hv
  rw [filterKey] at hv
  rcases List.mem_map.mp hv with ⟨p, hpf, hpv⟩
  have hpE := (List.mem_filter.mp hpf).1
  rcases List.mem_flatten.mp hpE with ⟨evts, hevts, hpevts⟩
  rcases List.mem_map.mp hevts with ⟨lines, hlines, hfe⟩
  have hflush : ∃ l2, p ∈ flushEmit resolve fen0 l2 := by
    rw [← hfe, fileEmit] at hpevts
    rcases List.mem_append.mp hpevts with h | h
    · exact mem_linesEmit resolve fen0 initLight lines p h
    · exact ⟨_, h⟩
  rcases hflush with ⟨l2, hl2⟩
  rcases mem_flushEmit resolve fen0 l2 p hl2 with ⟨op, vn, _, _, hp⟩
  refine ⟨extractTokens l2.curMovesLines, ?_, ?_, ?_⟩ <;> rw [← hpv, hp]

/-- C2: for the token-resolution loop, the three sequences stay in
lockstep and the accepted tokens form a prefix of the token list; and
every Variation in the parsed mapping has
states = moves + 1 = display + 1 with all three sequences cut at the
same point — the failing token, when there is one, sits right after
the accepted prefix, so no malformed tail enters any sequence. -/
theorem C2_thm :
    (∀ (resolve : Str → Str → Option (Str × Str)) (fen : Str) (toks : List Str),
       (resolveTokens resolve fen toks).sans.length =
         (resolveTokens resolve fen toks).ucis.length ∧
       (resolveTokens resolve fen toks).fens.length =
         (resolveTokens resolve fen toks).ucis.length ∧
       (resolveTokens resolve fen toks).sans =
         toks.take (resolveTokens resolve fen toks).sans.length) ∧
    (∀ (resolve : Str → Str → Option (Str × Str)) (fen0 : Str)
       (files : List (List Str)) (k : Str) (v : Variation),
       v ∈ lookupVars k (parse_assets resolve fen0 files).1 →
       v.states_fen.length = v.moves_uci.length + 1 ∧
       v.moves_san.length = v.moves_uci.length ∧
       ∃ toks : List Str,
         v.moves_san = (resolveTokens resolve fen0 toks).sans ∧
         v.moves_uci = (resolveTokens resolve fen0 toks).ucis ∧
         v.states_fen = fen0 :: (resolveTokens resolve fen0 toks).fens ∧
         v.moves_san = toks.take v.moves_san.length ∧
         ((resolveTokens resolve fen0 toks).bad = none → v.moves_san = toks) ∧
         (∀ t, (resolveTokens resolve fen0 toks).bad = some t →
           toks[v.moves_san.length]? = some t)) := by
  constructor
  · intro resolve fen toks
    exact ⟨(resolveTokens_lengths resolve fen toks).1,
      (resolveTokens_lengths resolve fen toks).2,
      resolveTokens_take resolve fen toks⟩
  · intro resolve fen0 files k v hv
    rcases parse_mem_shape resolve fen0 files k v hv with ⟨toks, hs, hu, hf⟩
    have hlen := resolveTokens_lengths resolve fen0 toks
    refine ⟨?_, ?_, toks, hs, hu, hf, ?_, ?_, ?_⟩
    · rw [hf, hu, List.length_cons, hlen.2]
    · rw [hs, hu, hlen.1]
    · rw [hs]; exact resolveTokens_take resolve fen0 toks
    · intro hb; rw [hs]; exact resolveTokens_bad_none resolve fen0 toks hb
    · intro t hb; rw [hs]
      exact (resolveTokens_bad_some resolve fen0 toks t hb).1

/-- Witness for C2_thm: the truncated variation parsed from demoFile
satisfies the length invariant. -/
theorem C2_witness :
    demoParsedVar.states_fen.length = demoParsedVar.moves_uci.length + 1 ∧
    demoParsedVar.moves_san.length = demoParsedVar.moves_uci.length :=
  ⟨(C2_thm.2 demoResolve demoFen0 [demoFile] "Op".toList demoParsedVar (by decide)).1,
   (C2_thm.2 demoResolve demoFen0 [demoFile] "Op".toList demoParsedVar (by decide)).2.1⟩

/-- C9: the parsed mapping has one entry per opening name (no
duplicate keys), and the entry for a name is exactly the
concatenation, in encounter order across all files of the load, of
the variations flushed under a header with that name. -/
theorem C9_thm (resolve : Str → Str → Option (Str × Str)) (fen0 : Str)
    (files : List (List Str)) (k : Str) :
    (keysOf (parse_assets resolve fen0 files).1).Nodup ∧
    lookupVars k (parse_assets resolve fen0 files).1 =
      ((files.map (fun lines => filterKey k (fileEmit resolve fen0 lines))).flatten) := by
  constructor
  · rw [parse_assets, parse_assets_decomp]
    exact nodup_keys_applyEvts _ [] List.nodup_nil
  · rw [parse_assets, parse_assets_decomp]
    dsimp only
    rw [lookup_applyEvts]
    rw [show lookupVars k ([] : OpeningsMap) = [] from rfl, List.nil_append]
    rw [filterKey_flatten, List.map_map]
    rfl

/-- C10: a non-header, non-separator line while no Variation is open
leaves the parser state untouched; flushing with no open Opening or
no open Variation is a no-op; and a text with no Opening header at
all parses to the empty mapping. -/
theorem C10_thm :
    (∀ (resolve : Str → Str → Option (Str × Str)) (fen0 : Str) (st : ParseState)
       (line : Str), plainLine line = true → st.curVariation = none →
       processLine resolve fen0 st line = st) ∧
    (∀ (resolve : Str → Str → Option (Str × Str)) (fen0 : Str) (st : ParseState),
       st.curOpening = none ∨ st.curVariation = none →
       flush_variation resolve fen0 st = st) ∧
    (∀ (resolve : Str → Str → Option (Str × Str)) (fen0 : Str) (lines : List Str),
       (∀ l ∈ lines, startsTwoStars (strip l) = false) →
       (parse_assets resolve fen0 [lines]).1 = []) := by
  refine ⟨?_, ?_, ?_⟩
  · intro resolve fen0 st line hpl hcv
    simp only [plainLine, Bool.and_eq_true, Bool.not_eq_true'] at hpl
    rw [processLine]
    simp [hpl.1.1, hpl.1.2, hpl.2, hcv]
  · intro resolve fen0 st h
    rcases st with ⟨m, sop, svn, ml, d⟩
    rcases sop with _ | sop <;> rcases svn with _ | svn
    · rfl
    · rfl
    · rfl
    · rcases h with h | h <;> simp at h
  · intro resolve fen0 lines h
    rw [parse_assets, parse_assets_decomp]
    dsimp only
    have hrun := noTwoStars_run resolve fen0 lines initLight rfl h
    rw [show (List.map (fileEmit resolve fen0) [lines]).flatten =
      fileEmit resolve fen0 lines ++ [] from rfl, List.append_nil]
    rw [fileEmit, hrun.1, flushEmit_none resolve fen0 _ hrun.2]
    rfl

/-- C3: (1) resolution stops at the first failing token — the
accepted display moves are exactly the prefix before it, the failing
token sits right after that prefix, and it indeed fails to resolve
against the last reached position; (2) such a flush emits a
diagnostic naming the opening, the variation and the offending
token; (3) replacing the body of one variation (between its header
and its separator) by any other plain body leaves every other
entry of every other opening, and every sibling variation in the same opening,
unchanged. -/
theorem C3_thm :
    (∀ (resolve : Str → Str → Option (Str × Str)) (fen : Str) (toks : List Str)
       (t : Str), (resolveTokens resolve fen toks).bad = some t →
       (resolveTokens resolve fen toks).sans =
         toks.take (resolveTokens resolve fen toks).sans.length ∧
       toks[(resolveTokens resolve fen toks).sans.length]? = some t ∧
       ∃ lf : Str, (fen :: (resolveTokens resolve fen toks).fens).getLast? = some lf ∧
         resolve lf (stripAnnot t) = none) ∧
    (∀ (resolve : Str → Str → Option (Str × Str)) (fen0 : Str) (st : ParseState)
       (op vn t : Str),
       st.curOpening = some op → st.curVariation = some vn →
       strip (joinNL st.curMovesLines) ≠ [] →
       (resolveTokens resolve fen0 (extractTokens st.curMovesLines)).bad = some t →
       (flush_variation resolve fen0 st).diags = st.diags ++ [⟨op, vn, t⟩]) ∧
    (∀ (resolve : Str → Str → Option (Str × Str)) (fen0 : Str) (L1 : List Str)
       (vh : Str) (b1 b2 : List Str) (sep : Str) (L2 : List Str) (op : Str),
       startsTwoStars (strip vh) = false → startsStar (strip vh) = true →
       isSepLine (strip sep) = true →
       (∀ l ∈ b1, plainLine l = true) → (∀ l ∈ b2, plainLine l = true) →
       (lightRun initLight L1).curOpening = some op →
       (∀ k, k ≠ op →
         lookupVars k (parse_assets resolve fen0 [L1 ++ vh :: (b1 ++ sep :: L2)]).1 =
           lookupVars k (parse_assets resolve fen0 [L1 ++ vh :: (b2 ++ sep :: L2)]).1) ∧
       (∃ pre suf m1 m2 : List Variation,
         lookupVars op (parse_assets resolve fen0 [L1 ++ vh :: (b1 ++ sep :: L2)]).1 =
           pre ++ m1 ++ suf ∧
         lookupVars op (parse_assets resolve fen0 [L1 ++ vh :: (b2 ++ sep :: L2)]).1 =
           pre ++ m2 ++ suf ∧
         m1.length ≤ 1 ∧ m2.length ≤ 1)) := by
  refine ⟨?_, ?_, ?_⟩
  · intro resolve fen toks t hb
    exact ⟨resolveTokens_take resolve fen toks,
      (resolveTokens_bad_some resolve fen toks t hb).1,
      (resolveTokens_bad_some resolve fen toks t hb).2⟩
  · intro resolve fen0 st op vn t hop hvn hnb hbad
    rcases st with ⟨m, sop, svn, ml, d⟩
    cases hop
    cases hvn
    dsimp only at hnb hbad ⊢
    rw [flush_variation]
    dsimp only
    rw [if_neg hnb]
    dsimp only
    rw [hbad]
  · intro resolve fen0 L1 vh b1 b2 sep L2 op hvh2 hvh1 hsep hb1 hb2 hop
    have hsepns := sep_not_star (strip sep) hsep
    obtain ⟨hlvh, hevh⟩ := lightLine_star (lightRun initLight L1) vh hvh2 hvh1
    rw [hop] at hlvh
    have hs3op : ∀ b, (∀ l ∈ b, plainLine l = true) →
        (lightRun (lightLine (lightRun initLight L1) vh) b).curOpening = some op := by
      intro b hb
      have hpr := plain_run resolve fen0 b (lightLine (lightRun initLight L1) vh) hb
      rw [hpr.1, hlvh]
    have hform : ∀ b, (∀ l ∈ b, plainLine l = true) →
        fileEmit resolve fen0 (L1 ++ vh :: (b ++ sep :: L2)) =
          (linesEmit resolve fen0 initLight L1 ++
            flushEmit resolve fen0 (lightRun initLight L1)) ++
          (flushEmit resolve fen0 (lightRun (lightLine (lightRun initLight L1) vh) b) ++
            (linesEmit resolve fen0 ⟨some op, none, []⟩ L2 ++
              flushEmit resolve fen0 (lightRun ⟨some op, none, []⟩ L2))) := by
      intro b hb
      have hpr := plain_run resolve fen0 b (lightLine (lightRun initLight L1) vh) hb
      obtain ⟨hlsep, hesep⟩ :=
        lightLine_sep (lightRun (lightLine (lightRun initLight L1) vh) b) sep
          hsepns.1 hsepns.2 hsep
      have hA : lightLine (lightRun (lightLine (lightRun initLight L1) vh) b) sep =
          (⟨some op, none, []⟩ : LightState) := by
        rw [hlsep, hs3op b hb]
      rw [fileEmit]
      rw [linesEmit_append, lightRun_append]
      rw [show linesEmit resolve fen0 (lightRun initLight L1) (vh :: (b ++ sep :: L2)) =
          lineEmit resolve fen0 (lightRun initLight L1) vh ++
            linesEmit resolve fen0 (lightLine (lightRun initLight L1) vh)
              (b ++ sep :: L2) from rfl]
      rw [hevh resolve fen0]
      rw [linesEmit_append]
      rw [hpr.2.2]
      rw [show linesEmit resolve fen0
            (lightRun (lightLine (lightRun initLight L1) vh) b) (sep :: L2) =
          lineEmit resolve fen0
            (lightRun (lightLine (lightRun initLight L1) vh) b) sep ++
            linesEmit resolve fen0
              (lightLine (lightRun (lightLine (lightRun initLight L1) vh) b) sep)
              L2 from rfl]
      rw [hesep resolve fen0, hA]
      rw [show lightRun (lightRun initLight L1) (vh :: (b ++ sep :: L2)) =
          lightRun (lightLine (lightRun initLight L1) vh) (b ++ sep :: L2) from rfl]
      rw [lightRun_append]
      rw [show lightRun (lightRun (lightLine (lightRun initLight L1) vh) b)
            (sep :: L2) =
          lightRun (lightLine (lightRun (lightLine (lightRun initLight L1) vh) b) sep)
            L2 from rfl]
      rw [hA]
      simp [List.append_assoc]
    constructor
    · intro k hk
      rw [parse_single_lookup, parse_single_lookup, hform b1 hb1, hform b2 hb2]
      simp only [filterKey_append]
      rw [filterKey_flushEmit_ne resolve fen0 _ op k (hs3op b1 hb1) hk,
        filterKey_flushEmit_ne resolve fen0 _ op k (hs3op b2 hb2) hk]
    · refine ⟨filterKey op (linesEmit resolve fen0 initLight L1 ++
          flushEmit resolve fen0 (lightRun initLight L1)),
        filterKey op (linesEmit resolve fen0 ⟨some op, none, []⟩ L2 ++
          flushEmit resolve fen0 (lightRun ⟨some op, none, []⟩ L2)),
        filterKey op (flushEmit resolve fen0
          (lightRun (lightLine (lightRun initLight L1) vh) b1)),
        filterKey op (flushEmit resolve fen0
          (lightRun (lightLine (lightRun initLight L1) vh) b2)),
        ?_, ?_, ?_, ?_⟩
      · rw [parse_single_lookup, hform b1 hb1]
        simp only [filterKey_append, List.append_assoc]
      · rw [parse_single_lookup, hform b2 hb2]
        simp only [filterKey_append, List.append_assoc]
      · exact le_trans (filterKey_length_le _ _) (flushEmit_length _ _ _)
      · exact le_trans (filterKey_length_le _ _) (flushEmit_length _ _ _)

/-- Witness for C3_thm: the failing token zz of the demo engine
stops resolution right after e4; a concrete flush records the
diagnostic (Op, Var, zz); and swapping the body of one variation
leaves the entry of a concrete other opening untouched. -/
theorem C3_witness :
    (resolveTokens demoResolve demoFen0 [['e', '4'], ['z', 'z']]).sans =
      [['e', '4'], ['z', 'z']].take
        (resolveTokens demoResolve demoFen0 [['e', '4'], ['z', 'z']]).sans.length ∧
    (flush_variation demoResolve demoFen0
      ⟨[], some "Op".toList, some "Var".toList, ["1. e4 zz".toList], []⟩).diags =
      [] ++ [⟨"Op".toList, "Var".toList, ['z', 'z']⟩] ∧
    lookupVars "W".toList (parse_assets demoResolve demoFen0
      [["** Op:".toList] ++ "* Var:".toList ::
        (["1. zz".toList] ++ "----".toList ::
          ["** W:".toList, "* V2:".toList, "1. e4".toList])]).1 =
    lookupVars "W".toList (parse_assets demoResolve demoFen0
      [["** Op:".toList] ++ "* Var:".toList ::
        (["1. e4".toList] ++ "----".toList ::
          ["** W:".toList, "* V2:".toList, "1. e4".toList])]).1 :=
  ⟨(C3_thm.1 demoResolve demoFen0 [['e', '4'], ['z', 'z']] ['z', 'z'] (by decide)).1,
   C3_thm.2.1 demoResolve demoFen0
     ⟨[], some "Op".toList, some "Var".toList, ["1. e4 zz".toList], []⟩
     "Op".toList "Var".toList ['z', 'z'] rfl rfl (by decide) (by decide),
   (C3_thm.2.2 demoResolve demoFen0 ["** Op:".toList] "* Var:".toList
     ["1. zz".toList] ["1. e4".toList] "----".toList
     ["** W:".toList, "* V2:".toList, "1. e4".toList] "Op".toList
     (by decide) (by decide) (by decide) (by decide) (by decide) (by decide)).1
     "W".toList (by decide)⟩

/-- C4: behaviour of the code at the failing input.  With a variation
selected and ply 0 still animating (its frame chain pending), a
second Next click is not dropped: `on_next` checks only that a
variation is selected — `playing_animation` is initialized to False
and never consulted or updated — so a second `animate_move` call is
issued while the first is in flight, leaving two overlapping frame
chains pending; the combined trace fails the no-overlap scan. -/
theorem C4_code_behavior :
    on_next demoSys = some demoSysMid ∧
    on_next demoSysMid = some demoSysTwo ∧
    demoSysTwo.pending.length = 2 ∧
    seqOK demoSysTwo.trace = false ∧
    demoSysMid.app.playingAnimation = false := by decide

/-- C5: with a variation selected, every integer navigation target is
clamped into [0, N] before stepping and navigation completes without
any out-of-range access of moves_uci or states_fen (the model returns
none exactly where the source would raise IndexError); a Next at
the last ply and a Prev at ply 0 are no-ops that only refresh the
status and leave the cursor in place. -/
theorem C5_thm (sys : Sys) (var : Variation)
    (hpend : sys.pending = [])
    (hvar : lookupVariation sys.app = some var)
    (hlen : var.states_fen.length = var.moves_uci.length + 1)
    (hcur : sys.app.currentMoveIndex ≤ var.moves_uci.length) :
    (∀ target : Int, ∃ sys2 final : Sys,
       play_move_sequence_to sys target = some sys2 ∧
       (∃ fuel, drain fuel sys2 = some final) ∧
       final.pending = [] ∧
       final.app.currentMoveIndex =
         (max 0 (min target (var.moves_uci.length : Int))).toNat) ∧
    (sys.app.currentMoveIndex = var.moves_uci.length →
       on_next sys = some { sys with
         trace := sys.trace ++ [CEvent.statusUpd var.moves_uci.length] }) ∧
    (sys.app.currentMoveIndex = 0 →
       on_prev sys = some { sys with trace := sys.trace ++ [CEvent.statusUpd 0] }) := by
  have hguard : ¬ (sys.app.currentOpening = none ∨ sys.app.currentVariationIdx = none) := by
    intro h
    rcases h with h | h <;> simp [lookupVariation, h] at hvar
  have hfen : var.states_fen ≠ [] := by
    intro h
    rw [h] at hlen
    simp at hlen
  obtain ⟨f0, hfacc⟩ : ∃ f0, var.states_fen[0]? = some f0 :=
    ⟨_, List.getElem?_eq_getElem (List.length_pos.mpr hfen)⟩
  have hplay : ∀ target : Int, play_move_sequence_to sys target =
      step_to var var.moves_uci.length sys sys.app.currentMoveIndex
        (max 0 (min target (var.moves_uci.length : Int))).toNat := by
    intro target
    rw [play_move_sequence_to, if_neg hguard, hvar]
  refine ⟨?_, ?_, ?_⟩
  · intro target
    have hcle : (max 0 (min target (var.moves_uci.length : Int))).toNat ≤
        var.moves_uci.length := by
      rw [Int.toNat_le]
      exact max_le (Int.natCast_nonneg _) (min_le_right _ _)
    rcases Nat.lt_trichotomy (max 0 (min target (var.moves_uci.length : Int))).toNat
      sys.app.currentMoveIndex with hlt | heq | hgt
    · -- backward jump: direct re-render, nothing scheduled
      by_cases hz : 0 < (max 0 (min target (var.moves_uci.length : Int))).toNat
      · obtain ⟨mv, hacc⟩ : ∃ mv,
            var.moves_uci[(max 0 (min target (var.moves_uci.length : Int))).toNat - 1]? =
              some mv :=
          ⟨_, List.getElem?_eq_getElem (by omega)⟩
        have hstep : play_move_sequence_to sys target = some
            { sys with
              app.currentMoveIndex := (max 0 (min target (var.moves_uci.length : Int))).toNat,
              trace := sys.trace ++
                [CEvent.canvasReset (max 0 (min target (var.moves_uci.length : Int))).toNat,
                 CEvent.arrowDrawn, CEvent.checkShown,
                 CEvent.statusUpd (max 0 (min target (var.moves_uci.length : Int))).toNat] } := by
          rw [hplay target, step_to, if_neg (by omega), if_neg (by omega), hfacc,
            if_pos hz, hacc]
        exact ⟨_, _, hstep, ⟨0, drain_empty 0 _ hpend⟩, hpend, rfl⟩
      · have hstep : play_move_sequence_to sys target = some
            { sys with
              app.currentMoveIndex := (max 0 (min target (var.moves_uci.length : Int))).toNat,
              trace := sys.trace ++
                [CEvent.canvasReset (max 0 (min target (var.moves_uci.length : Int))).toNat,
                 CEvent.checkShown,
                 CEvent.statusUpd (max 0 (min target (var.moves_uci.length : Int))).toNat] } := by
          rw [hplay target, step_to, if_neg (by omega), if_neg (by omega), hfacc,
            if_neg hz]
        exact ⟨_, _, hstep, ⟨0, drain_empty 0 _ hpend⟩, hpend, rfl⟩
    · -- target equals the cursor: only the status is refreshed
      have hstep : play_move_sequence_to sys target = some
          { sys with
            app.currentMoveIndex := (max 0 (min target (var.moves_uci.length : Int))).toNat,
            trace := sys.trace ++
              [CEvent.statusUpd (max 0 (min target (var.moves_uci.length : Int))).toNat] } := by
        rw [hplay target, step_to, if_pos heq.symm]
      exact ⟨_, _, hstep, ⟨0, drain_empty 0 _ hpend⟩, hpend, rfl⟩
    · -- forward: one animation chain runs to completion
      obtain ⟨mv, hacc⟩ : ∃ mv,
          var.moves_uci[sys.app.currentMoveIndex + 1 - 1]? = some mv := by
        have h11 : sys.app.currentMoveIndex + 1 - 1 = sys.app.currentMoveIndex := by omega
        rw [h11]
        exact ⟨_, List.getElem?_eq_getElem (by omega)⟩
      have hstep : play_move_sequence_to sys target =
          some { sys with
            pending := sys.pending ++ [Task.frame
              ⟨var, var.moves_uci.length, sys.app.currentMoveIndex + 1,
                (max 0 (min target (var.moves_uci.length : Int))).toNat⟩ 1],
            trace := sys.trace ++ [CEvent.animStart (sys.app.currentMoveIndex + 1 - 1),
              CEvent.frameMove 0] } := by
        rw [hplay target]
        simp only [step_to]
        rw [if_neg (show ¬ sys.app.currentMoveIndex =
          (max 0 (min target (var.moves_uci.length : Int))).toNat by omega)]
        rw [if_pos (show sys.app.currentMoveIndex <
          (max 0 (min target (var.moves_uci.length : Int))).toNat by omega)]
        rw [hacc, hfacc]
      obtain ⟨delta, hd, _, _, _, _⟩ :=
        chain_run (chainFuel ⟨var, var.moves_uci.length, sys.app.currentMoveIndex + 1,
            (max 0 (min target (var.moves_uci.length : Int))).toNat⟩ 1)
          ⟨var, var.moves_uci.length, sys.app.currentMoveIndex + 1,
            (max 0 (min target (var.moves_uci.length : Int))).toNat⟩ 1
          { sys with
            pending := sys.pending ++ [Task.frame
              ⟨var, var.moves_uci.length, sys.app.currentMoveIndex + 1,
                (max 0 (min target (var.moves_uci.length : Int))).toNat⟩ 1],
            trace := sys.trace ++ [CEvent.animStart (sys.app.currentMoveIndex + 1 - 1),
              CEvent.frameMove 0] }
          rfl (by rw [hpend]; rfl) (by omega) (by rw [show ANIM_FRAMES = 25 from rfl]; omega)
          rfl (by dsimp only; omega) (by dsimp only; omega) (by dsimp only; omega) hfen
      exact ⟨_, _, hstep, ⟨_, hd⟩, rfl, rfl⟩
  · -- Next at the last ply: no-op on the cursor
    intro hN
    have hclamp : (max 0 (min ((sys.app.currentMoveIndex : Int) + 1)
        (var.moves_uci.length : Int))).toNat = sys.app.currentMoveIndex := by
      rw [hN]
      rw [min_eq_right (by omega), max_eq_right (by omega)]
      omega
    have heta : ({ sys with
        app.currentMoveIndex := sys.app.currentMoveIndex,
        trace := sys.trace ++ [CEvent.statusUpd sys.app.currentMoveIndex] } : Sys) =
        { sys with trace := sys.trace ++ [CEvent.statusUpd sys.app.currentMoveIndex] } := rfl
    rw [on_next, if_neg hguard, hplay, hclamp, step_to, if_pos rfl, heta, hN]
  · -- Prev at ply 0: no-op on the cursor
    intro h0
    have hclamp : (max 0 (min ((sys.app.currentMoveIndex : Int) - 1)
        (var.moves_uci.length : Int))).toNat = sys.app.currentMoveIndex := by
      rw [h0]
      rw [min_eq_left (by omega), max_eq_left (by omega)]
      omega
    have heta : ({ sys with
        app.currentMoveIndex := sys.app.currentMoveIndex,
        trace := sys.trace ++ [CEvent.statusUpd sys.app.currentMoveIndex] } : Sys) =
        { sys with trace := sys.trace ++ [CEvent.statusUpd sys.app.currentMoveIndex] } := rfl
    rw [on_prev, if_neg hguard, hplay, hclamp, step_to, if_pos rfl, heta, h0]

/-- Witness for C5_thm: on the two-ply demo variation at ply 0, Prev
is a no-op that only refreshes the status. -/
theorem C5_witness :
    on_prev demoSys = some { demoSys with
      trace := demoSys.trace ++ [CEvent.statusUpd 0] } :=
  (C5_thm demoSys demoVar rfl (by decide) (by decide) (by decide)).2.2 rfl

/-- C6: with a variation selected and nothing in flight, backward
navigation re-renders directly — the scheduler is never invoked (no
animate call, no callback appears) — while forward navigation from
ply a to ply b runs exactly b − a animate sessions, strictly
alternating: the completion callback of each session fires before the next
animate call (the no-overlap scan accepts the trace). -/
theorem C6_thm (sys : Sys) (var : Variation) (b : Nat)
    (hpend : sys.pending = [])
    (hvar : lookupVariation sys.app = some var)
    (hlen : var.states_fen.length = var.moves_uci.length + 1)
    (hb : b ≤ var.moves_uci.length) :
    (b < sys.app.currentMoveIndex →
       ∃ sys2 : Sys, play_move_sequence_to sys (b : Int) = some sys2 ∧
         sys2.pending = [] ∧
         sys2.app.currentMoveIndex = b ∧
         countStarts (sys2.trace.drop sys.trace.length) = 0 ∧
         countCbs (sys2.trace.drop sys.trace.length) = 0) ∧
    (sys.app.currentMoveIndex < b →
       ∃ sys2 final : Sys, play_move_sequence_to sys (b : Int) = some sys2 ∧
         (∃ fuel, drain fuel sys2 = some final) ∧
         final.pending = [] ∧
         final.app.currentMoveIndex = b ∧
         countStarts (final.trace.drop sys.trace.length) = b - sys.app.currentMoveIndex ∧
         countCbs (final.trace.drop sys.trace.length) = b - sys.app.currentMoveIndex ∧
         seqOK (final.trace.drop sys.trace.length) = true) := by
  have hguard : ¬ (sys.app.currentOpening = none ∨ sys.app.currentVariationIdx = none) := by
    intro h
    rcases h with h | h <;> simp [lookupVariation, h] at hvar
  have hfen : var.states_fen ≠ [] := by
    intro h
    rw [h] at hlen
    simp at hlen
  obtain ⟨f0, hfacc⟩ : ∃ f0, var.states_fen[0]? = some f0 :=
    ⟨_, List.getElem?_eq_getElem (List.length_pos.mpr hfen)⟩
  have hclamp : (max 0 (min (b : Int) (var.moves_uci.length : Int))).toNat = b := by
    rw [min_eq_left (by exact_mod_cast hb), max_eq_right (by omega)]
    omega
  have hplay : play_move_sequence_to sys (b : Int) =
      step_to var var.moves_uci.length sys sys.app.currentMoveIndex
        (max 0 (min (b : Int) (var.moves_uci.length : Int))).toNat := by
    rw [play_move_sequence_to, if_neg hguard, hvar]
  rw [hclamp] at hplay
  constructor
  · -- backward: no scheduler session
    intro hlt
    by_cases hz : 0 < b
    · obtain ⟨mv, hacc⟩ : ∃ mv, var.moves_uci[b - 1]? = some mv :=
        ⟨_, List.getElem?_eq_getElem (by omega)⟩
      have hstep : play_move_sequence_to sys (b : Int) = some
          { sys with
            app.currentMoveIndex := b,
            trace := sys.trace ++ [CEvent.canvasReset b, CEvent.arrowDrawn,
              CEvent.checkShown, CEvent.statusUpd b] } := by
        rw [hplay, step_to, if_neg (by omega), if_neg (by omega), hfacc, if_pos hz, hacc]
      refine ⟨_, hstep, hpend, rfl, ?_, ?_⟩
      · show countStarts ((sys.trace ++ [CEvent.canvasReset b, CEvent.arrowDrawn,
            CEvent.checkShown, CEvent.statusUpd b]).drop sys.trace.length) = 0
        rw [List.drop_left]
        simp [countStarts, List.filter, isStart]
      · show countCbs ((sys.trace ++ [CEvent.canvasReset b, CEvent.arrowDrawn,
            CEvent.checkShown, CEvent.statusUpd b]).drop sys.trace.length) = 0
        rw [List.drop_left]
        simp [countCbs, List.filter, isCb]
    · have hb0 : b = 0 := by omega
      subst hb0
      have hstep : play_move_sequence_to sys ((0 : Nat) : Int) = some
          { sys with
            app.currentMoveIndex := 0,
            trace := sys.trace ++ [CEvent.canvasReset 0,
              CEvent.checkShown, CEvent.statusUpd 0] } := by
        rw [hplay, step_to, if_neg (by omega), if_neg (by omega), hfacc, if_neg hz]
      refine ⟨_, hstep, hpend, rfl, ?_, ?_⟩
      · show countStarts ((sys.trace ++ [CEvent.canvasReset 0,
            CEvent.checkShown, CEvent.statusUpd 0]).drop sys.trace.length) = 0
        rw [List.drop_left]
        simp [countStarts, List.filter, isStart]
      · show countCbs ((sys.trace ++ [CEvent.canvasReset 0,
            CEvent.checkShown, CEvent.statusUpd 0]).drop sys.trace.length) = 0
        rw [List.drop_left]
        simp [countCbs, List.filter, isCb]
  · -- forward: exactly b − a sequential sessions
    intro hgt
    obtain ⟨mv, hacc⟩ : ∃ mv,
        var.moves_uci[sys.app.currentMoveIndex + 1 - 1]? = some mv := by
      have h11 : sys.app.currentMoveIndex + 1 - 1 = sys.app.currentMoveIndex := by omega
      rw [h11]
      exact ⟨_, List.getElem?_eq_getElem (by omega)⟩
    have hstep : play_move_sequence_to sys (b : Int) = some
        { sys with
          pending := sys.pending ++ [Task.frame
            ⟨var, var.moves_uci.length, sys.app.currentMoveIndex + 1, b⟩ 1],
          trace := sys.trace ++ [CEvent.animStart (sys.app.currentMoveIndex + 1 - 1),
            CEvent.frameMove 0] } := by
      rw [hplay]
      simp only [step_to]
      rw [if_neg (show ¬ sys.app.currentMoveIndex = b by omega)]
      rw [if_pos (show sys.app.currentMoveIndex < b by omega)]
      rw [hacc, hfacc]
    obtain ⟨delta, hd, hst, hcb, hre, hsq⟩ :=
      chain_run (chainFuel ⟨var, var.moves_uci.length, sys.app.currentMoveIndex + 1, b⟩ 1)
        ⟨var, var.moves_uci.length, sys.app.currentMoveIndex + 1, b⟩ 1
        { sys with
          pending := sys.pending ++ [Task.frame
            ⟨var, var.moves_uci.length, sys.app.currentMoveIndex + 1, b⟩ 1],
          trace := sys.trace ++ [CEvent.animStart (sys.app.currentMoveIndex + 1 - 1),
            CEvent.frameMove 0] }
        rfl (by rw [hpend]; rfl) (by omega) (by rw [show ANIM_FRAMES = 25 from rfl]; omega)
        rfl (by dsimp only; omega) (by dsimp only; omega) (by dsimp only; exact hb) hfen
    refine ⟨_, _, hstep, ⟨_, hd⟩, rfl, rfl, ?_, ?_, ?_⟩
    · show countStarts (((sys.trace ++
          [CEvent.animStart (sys.app.currentMoveIndex + 1 - 1), CEvent.frameMove 0]) ++
          delta).drop sys.trace.length) = b - sys.app.currentMoveIndex
      rw [List.append_assoc, List.drop_left, countStarts_append, hst]
      dsimp only
      simp [countStarts, List.filter, isStart]
      omega
    · show countCbs (((sys.trace ++
          [CEvent.animStart (sys.app.currentMoveIndex + 1 - 1), CEvent.frameMove 0]) ++
          delta).drop sys.trace.length) = b - sys.app.currentMoveIndex
      rw [List.append_assoc, List.drop_left, countCbs_append, hcb]
      dsimp only
      simp [countCbs, List.filter, isCb]
      omega
    · show seqOK (((sys.trace ++
          [CEvent.animStart (sys.app.currentMoveIndex + 1 - 1), CEvent.frameMove 0]) ++
          delta).drop sys.trace.length) = true
      rw [List.append_assoc, List.drop_left]
      rw [seqOK]
      simp only [List.cons_append, List.nil_append, seqAux]
      exact hsq

/-- Witness for C6_thm: from ply 0 of the two-ply demo variation, a
forward jump to ply 2 runs exactly two sequential animate sessions. -/
theorem C6_witness :
    ∃ sys2 final : Sys, play_move_sequence_to demoSys (2 : Int) = some sys2 ∧
      (∃ fuel, drain fuel sys2 = some final) ∧
      final.pending = [] ∧
      final.app.currentMoveIndex = 2 ∧
      countStarts (final.trace.drop demoSys.trace.length) = 2 - demoSys.app.currentMoveIndex ∧
      countCbs (final.trace.drop demoSys.trace.length) = 2 - demoSys.app.currentMoveIndex ∧
      seqOK (final.trace.drop demoSys.trace.length) = true :=
  (C6_thm demoSys demoVar 2 rfl (by decide) (by decide) (by decide)).2 (by decide)

/-- C8, counterexample: the claim says a reload invalidates the
in-flight session — the scheduler aborts without further mutating
presentation state and the controller resets to Idle.  In the code,
after a reload while ply 1 of a jump-to-2 is animating, the pending
frame chain keeps running: after the queue drains, the presentation
was reset twice more to positions of the old variation, a second
animate call for the old variation was issued, and the cursor ends at
2 even though the selection was cleared. -/
theorem C8_counterexample :
    play_move_sequence_to demoSys 2 = some demoSysJump ∧
    (drain 50 (reload_assets demoSysJump [])).map (fun s => s.app.currentMoveIndex) =
      some 2 ∧
    (drain 50 (reload_assets demoSysJump [])).map (fun s => s.app.currentOpening) =
      some none ∧
    (drain 50 (reload_assets demoSysJump [])).map
      (fun s => countResets (s.trace.drop 4)) = some 2 ∧
    (drain 50 (reload_assets demoSysJump [])).map
      (fun s => countStarts (s.trace.drop 4)) = some 1 := by decide

/-- C8, amended: a reload mid-transition does replace the openings
dict, clear the selection and reset the cursor, but it does not abort
the in-flight session: the pending frame chain runs to completion,
keeps resetting the presentation to positions of the old captured
variation, starts further animate sessions towards the captured
target, and finally overwrites the cursor with that target. -/
theorem C8_amended_thm (sys : Sys) (newOpenings : OpeningsMap) (s : Session) (i : Nat)
    (hpend : sys.pending = [Task.frame s i])
    (hi1 : 1 ≤ i) (hi2 : i ≤ ANIM_FRAMES)
    (hmax : s.maxMoves = s.varData.moves_uci.length)
    (hn1 : 1 ≤ s.nextIndex) (hnt : s.nextIndex ≤ s.target)
    (htm : s.target ≤ s.maxMoves) (hfen : s.varData.states_fen ≠ []) :
    ∃ final : Sys,
      drain (chainFuel s i) (reload_assets sys newOpenings) = some final ∧
      final.app.currentOpening = none ∧
      final.app.currentVariationIdx = none ∧
      final.app.openings = newOpenings ∧
      final.app.currentMoveIndex = s.target ∧
      final.pending = [] ∧
      ∃ delta : List CEvent,
        final.trace = sys.trace ++ [CEvent.canvasReset 0, CEvent.statusLoaded] ++ delta ∧
        1 ≤ countResets delta ∧
        countStarts delta = s.target - s.nextIndex := by
  obtain ⟨delta, hd, hst, hcb, hre, hsq⟩ :=
    chain_run (chainFuel s i) s i (reload_assets sys newOpenings) rfl hpend
      hi1 hi2 hmax hn1 hnt htm hfen
  exact ⟨_, hd, rfl, rfl, rfl, rfl, rfl, delta, rfl, by omega, hst⟩

/-- Witness for C8_amended_thm: the concrete reload-while-jumping
scenario of the counterexample. -/
theorem C8_witness :
    ∃ final : Sys,
      drain (chainFuel ⟨demoVar, 2, 1, 2⟩ 1) (reload_assets demoSysJump []) = some final ∧
      final.app.currentOpening = none ∧
      final.app.currentVariationIdx = none ∧
      final.app.openings = [] ∧
      final.app.currentMoveIndex = 2 ∧
      final.pending = [] ∧
      ∃ delta : List CEvent,
        final.trace = demoSysJump.trace ++
          [CEvent.canvasReset 0, CEvent.statusLoaded] ++ delta ∧
        1 ≤ countResets delta ∧
        countStarts delta = 1 :=
  C8_amended_thm demoSysJump [] ⟨demoVar, 2, 1, 2⟩ 1 rfl (by decide) (by decide)
    rfl (by decide) (by decide) (by decide) (by decide)

theorem countCbA_append (a b : List AEvent) :
    countCbA (a ++ b) = countCbA a + countCbA b := by
  simp [countCbA, List.filter_append]

theorem countCbA_delEvents (cv : CanvasState) (sq : Nat) :
    countCbA (delEvents cv sq) = 0 := by
  rw [delEvents]
  split_ifs <;> simp [countCbA, List.filter, isCbA]

theorem countCbA_removeCapturedAt (cv : CanvasState) (capSq : Option Nat) :
    countCbA (removeCapturedAt cv capSq).2 = 0 := by
  rcases capSq with _ | sq
  · simp [removeCapturedAt, countCbA, List.filter]
  · simp only [removeCapturedAt]
    exact countCbA_delEvents cv sq

/-- The frame chain of one animate_move call yields a non-empty list
of steps; no step but the last contains a callback invocation, and
the last step contains exactly one. -/
theorem frameRun_spec (toSq : Nat) (capSq : Option Nat) (frames : Nat) :
    ∀ (n i : Nat) (cv : CanvasState), frames - i = n →
    ∃ steps0 last, frameRun toSq capSq frames cv i = steps0 ++ [last] ∧
      (∀ st ∈ steps0, countCbA st = 0) ∧
      countCbA last = 1 := by
  intro n
  induction n using Nat.strong_induction_on with
  | _ n ih =>
    intro i cv hn
    by_cases h : frames ≤ i
    · refine ⟨[], [AEvent.cloneGone] ++ (removeCapturedAt cv capSq).2 ++
        [AEvent.placedAt toSq, AEvent.arrowA, AEvent.cb], ?_, by simp, ?_⟩
      · rw [frameRun, if_pos h]
        rfl
      · rw [countCbA_append, countCbA_append, countCbA_removeCapturedAt]
        simp [countCbA, List.filter, isCbA]
    · obtain ⟨steps0, last, hfr, h0, h1⟩ :=
        ih (frames - (i + 1)) (by omega) (i + 1)
          (if i = frames / 2 then (removeCapturedAt cv capSq).1 else cv) rfl
      refine ⟨([AEvent.moveFrag] ++
        (if i = frames / 2 then (removeCapturedAt cv capSq).2 else [])) :: steps0,
        last, ?_, ?_, h1⟩
      · rw [frameRun, if_neg h, hfr]
        rfl
      · intro st hst
        rcases List.mem_cons.mp hst with hst | hst
        · subst hst
          rw [countCbA_append]
          split_ifs with hmid
          · rw [countCbA_removeCapturedAt]
            simp [countCbA, List.filter, isCbA]
          · simp [countCbA, List.filter, isCbA]
        · exact h0 st hst

/-- C7: every animate_move call — on its normal frame-by-frame path
as well as on both fallback paths (missing moving piece, missing
canvas item) — produces a non-empty sequence of cooperative steps in
which the completion callback is invoked exactly once, inside the
final step. -/
theorem C7_thm (b : MoveCtx) (cv : CanvasState) (frames : Nat) :
    ∃ (steps0 : List (List AEvent)) (last : List AEvent),
      animate_move b cv frames = steps0 ++ [last] ∧
      (∀ st ∈ steps0, countCbA st = 0) ∧
      countCbA last = 1 := by
  rcases hpf : b.pieceAtFrom with _ | mp
  · refine ⟨[], [AEvent.resetToFinal, AEvent.cb], ?_, by simp, ?_⟩
    · simp only [animate_move, hpf, List.nil_append]
    · simp [countCbA, List.filter, isCbA]
  · by_cases hit : hasItemAt cv b.fromSq
    · obtain ⟨steps0, last, hfr, h0, h1⟩ :=
        frameRun_spec b.toSq (capturedItemSq b (deleteAt cv b.fromSq)) frames
          frames 0 (deleteAt cv b.fromSq) rfl
      rcases steps0 with _ | ⟨s0, t⟩
      · rw [List.nil_append] at hfr
        refine ⟨[], [AEvent.cloneMade] ++ delEvents cv b.fromSq ++ last, ?_, by simp, ?_⟩
        · simp only [animate_move, hpf, hit, if_true, hfr, List.nil_append,
            List.append_assoc]
        · rw [countCbA_append, countCbA_append, countCbA_delEvents, h1]
          simp [countCbA, List.filter, isCbA]
      · refine ⟨([AEvent.cloneMade] ++ delEvents cv b.fromSq ++ s0) :: t, last, ?_, ?_, h1⟩
        · simp only [animate_move, hpf, hit, if_true, hfr, List.cons_append,
            List.append_assoc]
        · intro st hst
          rcases List.mem_cons.mp hst with hst | hst
          · subst hst
            rw [countCbA_append, countCbA_append, countCbA_delEvents]
            have hs0 : countCbA s0 = 0 := h0 s0 (List.mem_cons_self _ _)
            rw [hs0]
            simp [countCbA, List.filter, isCbA]
          · exact h0 st (List.mem_cons_of_mem _ hst)
    · refine ⟨[], [AEvent.resetToFinal, AEvent.cb], ?_, by simp, ?_⟩
      · simp only [animate_move, hpf, hit, Bool.false_eq_true, if_false,
          List.nil_append]
      · simp [countCbA, List.filter, isCbA]

/-- Witness for C10_thm: a concrete move-text line outside any
variation is dropped, and a concrete header-free text parses to the
empty mapping. -/
theorem C10_witness :
    processLine alwaysFailResolve demoFen0 ⟨[], none, none, [], []⟩ "e4 e5".toList =
      ⟨[], none, none, [], []⟩ ∧
    (parse_assets alwaysFailResolve demoFen0 [["* Var:".toList, "1. e4".toList]]).1 = [] :=
  ⟨C10_thm.1 alwaysFailResolve demoFen0 ⟨[], none, none, [], []⟩ "e4 e5".toList
      (by decide) rfl,
   C10_thm.2.2 alwaysFailResolve demoFen0 ["* Var:".toList, "1. e4".toList]
      (by decide)⟩

end ChessVar
